import Mathlib

/-!
Verification of the py-ad-ldap client (src/ad_ldap/ad_ldap.py) against its
natural-language specification.

The Python code is shallowly embedded:
* a Python dict of directory attributes becomes an association list
  `PropMap := List (String × PropVal)` kept in insertion order (Python 3
  dicts preserve insertion order); a Python attribute-value list becomes
  `PropVal := List (Option String)`, where `none` stands for Python `None`
  and strings stand for both `str` and `bytes` values (`ToStr`/`ToBytes`
  convert between the two; both are modelled by `String`, except where the
  distinction decides a claim, see `ToStr`);
* the external LDAP store (python-ldap) is passed in as a function or as a
  scripted list of page responses;
* an uncaught Python exception becomes an explicit error constructor of the
  result type.
-/

namespace AdLdap

/-- Value of one directory attribute slot: a Python value that is either a
string/bytes value (`some s`) or Python `None` (`none`). -/
abbrev PVal := Option String

/-- Value list of one attribute, e.g. `['514']` becomes `[some "514"]`. -/
abbrev PropVal := List PVal

/-- A Python dict from attribute name to value list, in insertion order. -/
abbrev PropMap := List (String × PropVal)

/-- Dict lookup `m[k]`: first binding of key `k`, if any. -/
def lookupProp : PropMap → String → Option PropVal
  | [], _ => none
  | (k1, v) :: rest, k => if k1 = k then some v else lookupProp rest k

/-- Python `k in m` for a dict. -/
def hasKey (m : PropMap) (k : String) : Bool :=
  (lookupProp m k).isSome

/-- Dict assignment `m[k] = v`: replaces the first binding in place, or
appends a new binding at the end (Python 3 insertion-order semantics). -/
def setProp : PropMap → String → PropVal → PropMap
  | [], k, v => [(k, v)]
  | (k1, v1) :: rest, k, v =>
    if k1 = k then (k, v) :: rest else (k1, v1) :: setProp rest k v

/-- Keys of a dict. -/
def keysOf (m : PropMap) : List String :=
  m.map Prod.fst

/-! ### ADObject state and the snapshot-diff commit

`ADObject` (ad_ldap.py line 578) carries `self.properties` and
`self._property_snapshot`; `SetProperties` (lines 707-734) diffs the two and
sends the diff to `Domain.UpdateObject` (lines 355-377). -/

/-- Local state of one `ADObject`: the current `properties` dict and the
`_property_snapshot` baseline dict. -/
structure ADObjectState where
  properties : PropMap
  snapshot : PropMap
  deriving DecidableEq

/-- The external store behind `Domain.UpdateObject`: given the distinguished
name and the `(current_props, updated_props)` pair handed to
`ldap.modlist.modifyModlist` / `modify_s`, it answers with the LDAP result
code (`modify_s` result `result[0]`; 103 is the success code the code tests). -/
abbrev StoreFn := String → PropMap → PropMap → Int

/-- One differential-modify call transmitted to the store:
`(distinguished_name, current_props, updated_props)`. -/
abbrev StoreCall := String × PropMap × PropMap

instance : DecidableEq (PropMap × PropMap) := inferInstance

instance : DecidableEq StoreCall := inferInstance

instance : DecidableEq (List StoreCall) := inferInstance

/-- Outcome of `ADObject.SetProperties`. -/
inductive CommitResult where
  /-- The diff loop raised an uncaught `KeyError`: some `_property_snapshot`
  key is absent from `self.properties` (ad_ldap.py line 720 indexes
  `self.properties[prop]` for every snapshot key). -/
  | keyError
  /-- Reading `self.distinguished_name` raised (missing / empty / null
  `distinguishedName` value). -/
  | dnError
  /-- `Domain.UpdateObject` raised `errors.ADDomainNotConnectedError`. -/
  | notConnected
  /-- The method returned the boolean `b`. -/
  | returned (b : Bool)
  deriving DecidableEq

instance : DecidableEq (CommitResult × ADObjectState × List StoreCall) := inferInstance

/-- The diff loop of `SetProperties` (ad_ldap.py lines 719-722):
for every snapshot key, compare the snapshot value with
`self.properties[prop]`; `none` models the uncaught `KeyError` raised when a
snapshot key has been deleted from `properties`.  On success it returns the
pair `(old, new)` built in snapshot iteration order. -/
def computeDiff : PropMap → PropMap → Option (PropMap × PropMap)
  | [], _ => some ([], [])
  | (k, v) :: rest, props =>
    match lookupProp props k with
    | none => none
    | some cur =>
      match computeDiff rest props with
      | none => none
      | some (old, new) =>
        if v = cur then some (old, new)
        else some ((k, v) :: old, (k, cur) :: new)

/-- The second loop of `SetProperties` (ad_ldap.py lines 724-726): every key
present in `properties` but absent from the snapshot is added to the
snapshot with the placeholder value `[None]`, in `properties` order. -/
def addMissingAsNone (snap props : PropMap) : PropMap :=
  snap ++ (props.filter (fun kv => !hasKey snap kv.1)).map (fun kv => (kv.1, ([none] : PropVal)))

/-- Reading `self.distinguished_name` = `self.properties['distinguishedName'][0]`
(ad_ldap.py lines 619-621); `none` stands for the uncaught exception when the
key is missing, the value list is empty, or the first value is Python `None`. -/
def dnOf (props : PropMap) : Option String :=
  match lookupProp props "distinguishedName" with
  | some (some d :: _) => some d
  | _ => none

/-- `ADObject.SetProperties` (ad_ldap.py lines 707-734) composed with
`Domain.UpdateObject` (lines 355-377).  Returns the Python outcome, the
resulting local state, and the list of differential-modify calls transmitted
to the store.  `UpdateObject` returns `True` exactly when the store result
code is 103, and `None` (falsy) otherwise; on a truthy result the snapshot
is replaced by a deep copy of `properties` (deep copy is the identity in
this pure model). -/
def SetProperties (connected : Bool) (store : StoreFn) (st : ADObjectState) :
    CommitResult × ADObjectState × List StoreCall :=
  match computeDiff st.snapshot st.properties with
  | none => (.keyError, st, [])
  | some (old, new) =>
    let snap2 := addMissingAsNone st.snapshot st.properties
    match dnOf st.properties with
    | none => (.dnError, { st with snapshot := snap2 }, [])
    | some dn =>
      if connected then
        if store dn old new = 103 then
          (.returned true, { st with snapshot := st.properties }, [(dn, old, new)])
        else
          (.returned false, { st with snapshot := snap2 }, [(dn, old, new)])
      else (.notConnected, { st with snapshot := snap2 }, [])

/-! ### The specification changeset

The spec defines: `changed` = the subset of keys present in `baseline`
whose current value differs from the baseline value; `old` = the baseline
values for exactly those keys.  `diffOld`/`diffNew` are that definition,
written from the spec words, to be compared with `computeDiff`. -/

/-- Test whether one baseline entry differs from the current value. -/
def changedB (props : PropMap) (kv : String × PropVal) : Bool :=
  lookupProp props kv.1 != some kv.2

/-- Baseline entries whose current value differs (the spec changeset, old
side). -/
def diffOld (snap props : PropMap) : PropMap :=
  snap.filter (changedB props)

/-- Current values for exactly the changed keys (the spec changeset, new
side). -/
def diffNew (snap props : PropMap) : PropMap :=
  (diffOld snap props).map (fun kv => (kv.1, (lookupProp props kv.1).getD []))

/-! ### Basic lemmas about the dict model -/

theorem lookupProp_append_left {m m2 : PropMap} {k : String}
    (h : hasKey m k) : lookupProp (m ++ m2) k = lookupProp m k := by
  induction m with
  | nil => simp [hasKey, lookupProp] at h
  | cons kv rest ih =>
    obtain ⟨k1, v⟩ := kv
    by_cases hk : k1 = k
    · simp [lookupProp, hk]
    · simp only [hasKey, lookupProp, hk, if_neg hk, List.cons_append] at h ⊢
      exact ih h

theorem lookupProp_mem {m : PropMap} {k : String} {v : PropVal}
    (h : lookupProp m k = some v) : (k, v) ∈ m := by
  induction m with
  | nil => simp [lookupProp] at h
  | cons kv rest ih =>
    obtain ⟨k1, v1⟩ := kv
    by_cases hk : k1 = k
    · simp only [lookupProp, if_pos hk] at h
      subst hk
      obtain rfl : v1 = v := by injection h
      exact List.mem_cons_self _ _
    · simp only [lookupProp, if_neg hk] at h
      exact List.mem_cons_of_mem _ (ih h)

theorem lookupProp_eq_of_mem_nodup {m : PropMap} {k : String} {v : PropVal}
    (hn : (keysOf m).Nodup) (hm : (k, v) ∈ m) : lookupProp m k = some v := by
  induction m with
  | nil => simp at hm
  | cons kv rest ih =>
    obtain ⟨k1, v1⟩ := kv
    simp only [keysOf, List.map_cons, List.nodup_cons] at hn
    rcases List.mem_cons.mp hm with h | h
    · cases h
      simp [lookupProp]
    · have hk : k1 ≠ k := by
        intro hcontra
        subst hcontra
        exact hn.1 (List.mem_map.mpr ⟨(k1, v), h, rfl⟩)
      simp only [lookupProp, if_neg hk]
      exact ih hn.2 h

theorem lookupProp_setProp_self (m : PropMap) (k : String) (v : PropVal) :
    lookupProp (setProp m k v) k = some v := by
  induction m with
  | nil => simp [setProp, lookupProp]
  | cons kv rest ih =>
    obtain ⟨k1, v1⟩ := kv
    by_cases hk : k1 = k
    · simp [setProp, hk, lookupProp]
    · simp [setProp, hk, lookupProp, ih]

theorem lookupProp_setProp_ne (m : PropMap) {k k2 : String} (v : PropVal)
    (h : k2 ≠ k) : lookupProp (setProp m k v) k2 = lookupProp m k2 := by
  have hks : k ≠ k2 := fun hh => h hh.symm
  induction m with
  | nil =>
    simp only [setProp, lookupProp]
    rw [if_neg hks]
  | cons kv rest ih =>
    obtain ⟨k1, v1⟩ := kv
    by_cases hk : k1 = k
    · have h1 : k1 ≠ k2 := by rw [hk]; exact hks
      simp only [setProp, if_pos hk, lookupProp, if_neg hks, if_neg h1]
    · by_cases hk2 : k1 = k2
      · subst hk2
        simp [setProp, if_neg hk, lookupProp]
      · simp only [setProp, if_neg hk, lookupProp, if_neg hk2]
        exact ih

theorem diffOld_cons_changed {props rest : PropMap} {k : String} {v : PropVal}
    (hp : changedB props (k, v) = true) :
    diffOld ((k, v) :: rest) props = (k, v) :: diffOld rest props := by
  simp only [diffOld]
  exact List.filter_cons_of_pos hp

theorem diffOld_cons_unchanged {props rest : PropMap} {k : String} {v : PropVal}
    (hp : changedB props (k, v) = false) :
    diffOld ((k, v) :: rest) props = diffOld rest props := by
  simp only [diffOld]
  exact List.filter_cons_of_neg (by simp [hp])

/-- The diff loop succeeds exactly when every snapshot key is still present
in `properties`, and then computes exactly the specification changeset. -/
theorem computeDiff_eq_spec (snap props : PropMap)
    (h : ∀ kv ∈ snap, hasKey props kv.1) :
    computeDiff snap props = some (diffOld snap props, diffNew snap props) := by
  induction snap with
  | nil => simp [computeDiff, diffOld, diffNew]
  | cons kv rest ih =>
    obtain ⟨k, v⟩ := kv
    have hk : hasKey props k := h (k, v) (List.mem_cons_self _ _)
    obtain ⟨cur, hcur⟩ := Option.isSome_iff_exists.mp hk
    have ihr := ih (fun kv hkv => h kv (List.mem_cons_of_mem _ hkv))
    by_cases hv : v = cur
    · subst hv
      have hp : changedB props (k, v) = false := by
        simp [changedB, hcur]
      simp only [computeDiff, hcur, ihr, diffNew]
      rw [diffOld_cons_unchanged hp]
      simp
    · have hp : changedB props (k, v) = true := by
        simp only [changedB, hcur]
        simp [bne_iff_ne]
        exact fun hh => hv hh.symm
      simp only [computeDiff, hcur, ihr, if_neg hv, diffNew]
      rw [diffOld_cons_changed hp]
      simp [hcur]

/-- The diff loop raises `KeyError` exactly when some snapshot key has been
deleted from `properties`. -/
theorem computeDiff_eq_none (snap props : PropMap)
    (h : ∃ kv ∈ snap, ¬ hasKey props kv.1) :
    computeDiff snap props = none := by
  induction snap with
  | nil => simp at h
  | cons kv rest ih =>
    obtain ⟨k, v⟩ := kv
    obtain ⟨kv2, hkv2, hmiss⟩ := h
    rcases List.mem_cons.mp hkv2 with hh | hh
    · subst hh
      have : lookupProp props k = none := by
        cases hlp : lookupProp props k with
        | none => rfl
        | some _ => exact absurd (by simp [hasKey, hlp]) hmiss
      simp [computeDiff, this]
    · have := ih ⟨kv2, hh, hmiss⟩
      cases hlp : lookupProp props k with
      | none => simp [computeDiff, hlp]
      | some cur => simp [computeDiff, hlp, this]

theorem hasKey_of_mem {m : PropMap} {k : String} {v : PropVal}
    (h : (k, v) ∈ m) : hasKey m k := by
  induction m with
  | nil => simp at h
  | cons kv rest ih =>
    obtain ⟨k1, v1⟩ := kv
    by_cases hk : k1 = k
    · simp [hasKey, lookupProp, hk]
    · rcases List.mem_cons.mp h with hh | hh
      · cases hh; exact absurd rfl hk
      · simpa [hasKey, lookupProp, hk] using ih hh

/-- Keys of the transmitted changeset all come from the snapshot. -/
theorem diffNew_key_subset (snap props : PropMap) (k : String)
    (h : ¬ hasKey snap k) : ¬ hasKey (diffNew snap props) k := by
  intro hcontra
  obtain ⟨v, hv⟩ := Option.isSome_iff_exists.mp hcontra
  have hmem := lookupProp_mem hv
  simp only [diffNew, diffOld, List.mem_map, List.mem_filter] at hmem
  obtain ⟨⟨k1, v1⟩, ⟨hmem1, _⟩, heq⟩ := hmem
  have hk1 : k1 = k := by injection heq with h1 _
  subst hk1
  exact h (hasKey_of_mem hmem1)

/-- Keys of the old side of the changeset all come from the snapshot. -/
theorem diffOld_key_subset (snap props : PropMap) (k : String)
    (h : ¬ hasKey snap k) : ¬ hasKey (diffOld snap props) k := by
  intro hcontra
  obtain ⟨v, hv⟩ := Option.isSome_iff_exists.mp hcontra
  have hmem := lookupProp_mem hv
  simp only [diffOld, List.mem_filter] at hmem
  exact h (hasKey_of_mem hmem.1)

/-- With unique keys (always true of a Python dict), diffing a map against
itself yields the empty changeset. -/
theorem computeDiff_self (m : PropMap) (hn : (keysOf m).Nodup) :
    computeDiff m m = some ([], []) := by
  have hall : ∀ kv ∈ m, hasKey m kv.1 := fun kv hkv => by
    obtain ⟨k, v⟩ := kv
    exact hasKey_of_mem hkv
  have hold : diffOld m m = [] := by
    simp only [diffOld]
    rw [List.filter_eq_nil_iff]
    intro kv hkv
    obtain ⟨k, v⟩ := kv
    have : lookupProp m k = some v := lookupProp_eq_of_mem_nodup hn hkv
    simp [changedB, this]
  have := computeDiff_eq_spec m m hall
  rw [hold] at this
  simpa [diffNew, hold] using this

/-- When no key of `properties` is new, the placeholder loop leaves the
snapshot exactly unchanged. -/
theorem addMissingAsNone_eq_self (snap props : PropMap)
    (h : ∀ kv ∈ props, hasKey snap kv.1) :
    addMissingAsNone snap props = snap := by
  have : props.filter (fun kv => !hasKey snap kv.1) = [] := by
    rw [List.filter_eq_nil_iff]
    intro kv hkv
    simp [h kv hkv]
  simp [addMissingAsNone, this]

/-- Keys already present in the snapshot keep their value across the
placeholder loop. -/
theorem lookupProp_addMissingAsNone (snap props : PropMap) (k : String)
    (h : hasKey snap k) :
    lookupProp (addMissingAsNone snap props) k = lookupProp snap k :=
  lookupProp_append_left h

/-- Unfolding of `SetProperties` once the diff loop and the
`distinguished_name` read are known to succeed. -/
theorem SetProperties_eq_of (store : StoreFn) {st : ADObjectState}
    {old new : PropMap} {dn : String}
    (hcd : computeDiff st.snapshot st.properties = some (old, new))
    (hdn : dnOf st.properties = some dn) :
    SetProperties true store st =
      (if store dn old new = 103 then
        ((CommitResult.returned true), { st with snapshot := st.properties }, [(dn, old, new)])
       else
        (CommitResult.returned false,
         { st with snapshot := addMissingAsNone st.snapshot st.properties },
         [(dn, old, new)])) := by
  by_cases hs : store dn old new = 103
  · simp [SetProperties, hcd, hdn, hs]
  · simp [SetProperties, hcd, hdn, hs]

/-- Claim C1: for every entry, `SetProperties` transmits exactly the
specification changeset (`diffOld`/`diffNew`: keys present in the baseline
whose current value differs, with their baseline values as the old side) to
the differential-modify primitive; keys absent from the baseline are never
part of the transmitted changeset; and after a successful commit, a second
commit with no intervening mutation transmits an empty changeset and, given
the store acknowledgement, still reports success. -/
theorem setProperties_changeset_spec (store : StoreFn) (st : ADObjectState)
    (dn : String)
    (hall : ∀ kv ∈ st.snapshot, hasKey st.properties kv.1)
    (hdn : dnOf st.properties = some dn) :
    (SetProperties true store st).2.2 =
      [(dn, diffOld st.snapshot st.properties, diffNew st.snapshot st.properties)]
    ∧ (∀ k, ¬ hasKey st.snapshot k →
        ¬ hasKey (diffOld st.snapshot st.properties) k ∧
        ¬ hasKey (diffNew st.snapshot st.properties) k)
    ∧ (store dn (diffOld st.snapshot st.properties) (diffNew st.snapshot st.properties) = 103 →
       (keysOf st.properties).Nodup →
       (SetProperties true store (SetProperties true store st).2.1).2.2 = [(dn, [], [])]
       ∧ (store dn [] [] = 103 →
          (SetProperties true store (SetProperties true store st).2.1).1 =
            CommitResult.returned true)) := by
  have hcd := computeDiff_eq_spec st.snapshot st.properties hall
  have hset := SetProperties_eq_of store hcd hdn
  refine ⟨?_, ?_, ?_⟩
  · rw [hset]
    by_cases hs : store dn (diffOld st.snapshot st.properties) (diffNew st.snapshot st.properties) = 103
    · rw [if_pos hs]
    · rw [if_neg hs]
  · intro k hk
    exact ⟨diffOld_key_subset _ _ _ hk, diffNew_key_subset _ _ _ hk⟩
  · intro hs hnodup
    have hst1 : (SetProperties true store st).2.1 = { st with snapshot := st.properties } := by
      rw [hset, if_pos hs]
    have hcd1 : computeDiff ({ st with snapshot := st.properties } : ADObjectState).snapshot
        ({ st with snapshot := st.properties } : ADObjectState).properties = some ([], []) :=
      computeDiff_self st.properties hnodup
    have hset1 := SetProperties_eq_of store hcd1 hdn
    rw [hst1, hset1]
    constructor
    · by_cases he : store dn [] [] = 103
      · rw [if_pos he]
      · rw [if_neg he]
    · intro he
      rw [if_pos he]

/-- Witness for C1 at a concrete entry: baseline has `a = ['1']`, current
properties have `a = ['2']`; the transmitted changeset is exactly
`old = .. a ['1'] .., new = .. a ['2'] ..`. -/
theorem setProperties_changeset_spec_witness :
    (∀ kv ∈ (ADObjectState.mk
        [("distinguishedName", [some "cn=a,dc=x"]), ("a", [some "2"])]
        [("distinguishedName", [some "cn=a,dc=x"]), ("a", [some "1"])]).snapshot,
      hasKey (ADObjectState.mk
        [("distinguishedName", [some "cn=a,dc=x"]), ("a", [some "2"])]
        [("distinguishedName", [some "cn=a,dc=x"]), ("a", [some "1"])]).properties kv.1)
    ∧ (SetProperties true (fun _ _ _ => 103)
        (ADObjectState.mk
          [("distinguishedName", [some "cn=a,dc=x"]), ("a", [some "2"])]
          [("distinguishedName", [some "cn=a,dc=x"]), ("a", [some "1"])])).2.2 =
      [("cn=a,dc=x", [("a", [some "1"])], [("a", [some "2"])])] := by
  refine ⟨by decide, ?_⟩
  have h := setProperties_changeset_spec (fun _ _ _ => 103)
    (ADObjectState.mk
      [("distinguishedName", [some "cn=a,dc=x"]), ("a", [some "2"])]
      [("distinguishedName", [some "cn=a,dc=x"]), ("a", [some "1"])])
    "cn=a,dc=x" (by decide) rfl
  exact h.1.trans (by rfl)

/-- Claim C2 as amended: on acknowledged success (store code 103) the commit
returns true and replaces the baseline with (a deep copy of) the full
current properties; on a non-success answer it returns false and leaves
`properties` unchanged, and the baseline keeps the value of every key it
already had — but every key present in `properties` and absent from the
baseline is appended to the baseline with a `[None]` placeholder, so the
baseline is exactly unchanged only when no such key exists. -/
theorem setProperties_commit_amended (store : StoreFn) (st : ADObjectState)
    (dn : String)
    (hall : ∀ kv ∈ st.snapshot, hasKey st.properties kv.1)
    (hdn : dnOf st.properties = some dn) :
    (store dn (diffOld st.snapshot st.properties) (diffNew st.snapshot st.properties) = 103 →
       SetProperties true store st =
         (CommitResult.returned true, { st with snapshot := st.properties },
          [(dn, diffOld st.snapshot st.properties, diffNew st.snapshot st.properties)]))
    ∧ (store dn (diffOld st.snapshot st.properties) (diffNew st.snapshot st.properties) ≠ 103 →
       (SetProperties true store st).1 = CommitResult.returned false
       ∧ (SetProperties true store st).2.1.properties = st.properties
       ∧ (SetProperties true store st).2.1.snapshot =
           addMissingAsNone st.snapshot st.properties
       ∧ (∀ k, hasKey st.snapshot k →
           lookupProp (SetProperties true store st).2.1.snapshot k =
             lookupProp st.snapshot k)
       ∧ ((∀ kv ∈ st.properties, hasKey st.snapshot kv.1) →
           (SetProperties true store st).2.1.snapshot = st.snapshot)) := by
  have hcd := computeDiff_eq_spec st.snapshot st.properties hall
  have hset := SetProperties_eq_of store hcd hdn
  constructor
  · intro hs
    rw [hset, if_pos hs]
  · intro hs
    rw [hset, if_neg hs]
    refine ⟨rfl, rfl, rfl, ?_, ?_⟩
    · intro k hk
      exact lookupProp_addMissingAsNone st.snapshot st.properties k hk
    · intro hnonew
      exact addMissingAsNone_eq_self st.snapshot st.properties hnonew

/-- Witness for the amended C2 at a concrete entry (store refuses: code 0;
the entry carries the never-fetched key `b`). -/
theorem setProperties_commit_amended_witness :
    (SetProperties true (fun _ _ _ => 0)
      (ADObjectState.mk
        [("distinguishedName", [some "cn=a,dc=x"]), ("a", [some "1"]), ("b", [some "2"])]
        [("distinguishedName", [some "cn=a,dc=x"]), ("a", [some "1"])])).1 =
      CommitResult.returned false := by
  have h := setProperties_commit_amended (fun _ _ _ => 0)
    (ADObjectState.mk
      [("distinguishedName", [some "cn=a,dc=x"]), ("a", [some "1"]), ("b", [some "2"])]
      [("distinguishedName", [some "cn=a,dc=x"]), ("a", [some "1"])])
    "cn=a,dc=x" (by decide) rfl
  exact (h.2 (by decide)).1

/-- Counterexample to C2 as stated: the store does not acknowledge success
(code 0), yet the baseline snapshot is NOT left exactly as it was — the key
`b`, present in `properties` but absent from the baseline, has been appended
to the baseline with a `[None]` placeholder by the loop at ad_ldap.py lines
724-726, which runs before the store call and is not undone on failure. -/
theorem setProperties_failure_mutates_baseline_cex :
    (SetProperties true (fun _ _ _ => 0)
      (ADObjectState.mk
        [("distinguishedName", [some "cn=a,dc=x"]), ("a", [some "1"]), ("b", [some "2"])]
        [("distinguishedName", [some "cn=a,dc=x"]), ("a", [some "1"])])).1 =
      CommitResult.returned false
    ∧ (SetProperties true (fun _ _ _ => 0)
        (ADObjectState.mk
          [("distinguishedName", [some "cn=a,dc=x"]), ("a", [some "1"]), ("b", [some "2"])]
          [("distinguishedName", [some "cn=a,dc=x"]), ("a", [some "1"])])).2.1.snapshot ≠
      [("distinguishedName", [some "cn=a,dc=x"]), ("a", [some "1"])] := by
  constructor
  · decide
  · decide

/-- Claim C10: if some baseline key has been deleted from the current
properties, `SetProperties` does not return a boolean at all: the diff loop
raises an uncaught `KeyError` before any store write, the local state is
untouched and no call reaches the store. -/
theorem setProperties_deleted_key_uncaught (connected : Bool) (store : StoreFn)
    (st : ADObjectState) (k : String)
    (hk : hasKey st.snapshot k) (hmiss : ¬ hasKey st.properties k) :
    SetProperties connected store st = (CommitResult.keyError, st, [])
    ∧ ∀ b, (SetProperties connected store st).1 ≠ CommitResult.returned b := by
  have hcd : computeDiff st.snapshot st.properties = none := by
    obtain ⟨v, hv⟩ := Option.isSome_iff_exists.mp hk
    exact computeDiff_eq_none _ _ ⟨(k, v), lookupProp_mem hv, hmiss⟩
  constructor
  · simp [SetProperties, hcd]
  · intro b
    simp [SetProperties, hcd]

/-- Witness for C10: the baseline knows `a` but `a` has been deleted from
`properties`; the commit raises and transmits nothing. -/
theorem setProperties_deleted_key_uncaught_witness :
    SetProperties true (fun _ _ _ => 103)
      (ADObjectState.mk
        [("distinguishedName", [some "cn=a,dc=x"])]
        [("distinguishedName", [some "cn=a,dc=x"]), ("a", [some "1"])]) =
      (CommitResult.keyError,
       ADObjectState.mk
        [("distinguishedName", [some "cn=a,dc=x"])]
        [("distinguishedName", [some "cn=a,dc=x"]), ("a", [some "1"])], []) :=
  (setProperties_deleted_key_uncaught true (fun _ _ _ => 103)
    (ADObjectState.mk
      [("distinguishedName", [some "cn=a,dc=x"])]
      [("distinguishedName", [some "cn=a,dc=x"]), ("a", [some "1"])])
    "a" (by decide) (by decide)).1

/-! ### Paginated search (`Domain.Search`, ad_ldap.py lines 231-306)

The python-ldap client is modelled by a script: `firstExc` says whether the
initial `search_ext` call raises, and `responses` lists the successive
answers of `result3` (each either a page or a raised ldap exception).  The
embedding records every query issued by `search_ext` so that the claims can
inspect the continuation queries. -/

/-- Raw python-ldap exceptions. -/
inductive LdapExc where
  /-- `ldap.TIMELIMIT_EXCEEDED`. -/
  | timelimit
  /-- Any other ldap exception. -/
  | other
  deriving DecidableEq

/-- One raw search record `(dn-or-None, attrs)` as returned in `rdata`. -/
abbrev RawRecord := Option String × PropMap

/-- One `result3` answer: the page data plus the paging control, if the
server returned one (`some cookie`, possibly empty, or `none` for no
control). -/
structure PageResponse where
  rdata : List RawRecord
  control : Option String
  deriving DecidableEq

/-- One query issued through `search_ext`; `cookie` is the continuation
cookie carried by the attached `SimplePagedResultsControl`. -/
structure Query where
  base : String
  scope : Nat
  filter : String
  attrlist : Option (List String)
  cookie : String
  deriving DecidableEq

/-- python-ldap scope constants: `ldap.SCOPE_BASE`. -/
def SCOPE_BASE : Nat := 0

/-- python-ldap scope constants: `ldap.SCOPE_ONELEVEL`. -/
def SCOPE_ONELEVEL : Nat := 1

/-- python-ldap scope constants: `ldap.SCOPE_SUBTREE`. -/
def SCOPE_SUBTREE : Nat := 2

/-- Outcome of `Domain.Search`. -/
inductive SearchError where
  /-- `errors.ADDomainNotConnectedError`. -/
  | notConnected
  /-- `errors.QueryTimeoutError` (raised only by the `except` clause around
  the initial `search_ext`, ad_ldap.py lines 263-269). -/
  | queryTimeout
  /-- A raw, uncaught python-ldap exception that propagates to the caller. -/
  | rawLdap (e : LdapExc)
  /-- Artifact of the scripted store: the loop asked for one more `result3`
  answer than the script provides (a real client would block). -/
  | scriptExhausted
  deriving DecidableEq

/-- Modelled from the spec: `constants.MANDATORY_PROPS_DEFAULT` (the
`constants` module is not part of src/).  The spec calls it the mandatory
default attribute set backfilled with a single empty-string placeholder;
the unit tests pin it to contain at least these four names.  Its exact
contents do not affect any claim. -/
def MANDATORY_PROPS_DEFAULT : List String :=
  ["distinguishedName", "objectClass", "objectCategory", "name"]

/-- The `while True` loop of `Domain.Search` (ad_ldap.py lines 271-293):
consume one `result3` answer, append its records, inspect the paging
control.  A control with a non-empty cookie re-issues `search_ext` with the
base DN, hard-coded `ldap.SCOPE_SUBTREE`, the filter, NO attribute list
(the `properties` argument is not passed on, so python-ldap defaults to all
attributes) and the new cookie — see lines 285-288.  An empty cookie or a
missing control ends the loop. -/
def searchLoop (base ldap_filter : String) :
    List (Except LdapExc PageResponse) → List RawRecord → List Query →
    Except SearchError (List RawRecord) × List Query
  | [], _, queries => (.error .scriptExhausted, queries)
  | r :: rest, acc, queries =>
    match r with
    | .error e => (.error (.rawLdap e), queries)
    | .ok page =>
      let acc2 := acc ++ page.rdata
      match page.control with
      | some cookie =>
        if cookie ≠ "" then
          searchLoop base ldap_filter rest acc2
            (queries ++ [⟨base, SCOPE_SUBTREE, ldap_filter, none, cookie⟩])
        else (.ok acc2, queries)
      | none => (.ok acc2, queries)

/-- Post-processing of the accumulated raw records (ad_ldap.py lines
295-304): skip records whose dn is `None`, backfill every missing mandatory
default attribute with `['']`, then overwrite `distinguishedName` with the
record's own dn.  The constructed object (default class `ADObject`) starts
with baseline = deep copy of its properties. -/
def postProcess (raw : List RawRecord) : List ADObjectState :=
  raw.filterMap (fun r =>
    match r.1 with
    | none => none
    | some dn =>
      let filled := MANDATORY_PROPS_DEFAULT.foldl
        (fun m p => if hasKey m p then m else m ++ [(p, [some ""])]) r.2
      let withDn := setProp filled "distinguishedName" [some dn]
      some ⟨withDn, withDn⟩)

/-- `Domain.Search` (ad_ldap.py lines 231-306).  Returns the outcome and
the list of queries issued through `search_ext`.  Only the initial
`search_ext` sits inside the `try/except ldap.TIMELIMIT_EXCEEDED` that
converts to `errors.QueryTimeoutError`; exceptions raised while retrieving
results (`result3`) propagate raw. -/
def Search (connected : Bool) (firstExc : Option LdapExc)
    (responses : List (Except LdapExc PageResponse))
    (ldap_filter : String) (base_dn : Option String) (dn_root : String)
    (scope : Nat) (properties : Option (List String)) :
    Except SearchError (List ADObjectState) × List Query :=
  if connected then
    let base := base_dn.getD dn_root
    let q0 : Query := ⟨base, scope, ldap_filter, properties, ""⟩
    match firstExc with
    | some .timelimit => (.error .queryTimeout, [q0])
    | some e => (.error (.rawLdap e), [q0])
    | none =>
      match searchLoop base ldap_filter responses [] [q0] with
      | (.error e, qs) => (.error e, qs)
      | (.ok raw, qs) => (.ok (postProcess raw), qs)
  else (.error .notConnected, [])

/-- Claim C3 (code bug): a continuation page is NOT issued as the same
query.  Concrete run: a one-level search for attribute list `['cn']` whose
first page returns cookie "K".  The re-issued query uses
`ldap.SCOPE_SUBTREE` (2) instead of the requested `ldap.SCOPE_ONELEVEL`
(1) and drops the requested attribute list (lines 285-288 pass neither
`scope` nor `properties`); the stop conditions (empty cookie / absent
control) do hold. -/
theorem search_reissue_changes_query_cex :
    (Search true none
      [Except.ok ⟨[(some "cn=x,ou=b", [])], some "K"⟩, Except.ok ⟨[], none⟩]
      "objectClass=x" (some "ou=b") "dc=r" SCOPE_ONELEVEL (some ["cn"])).2 =
      [⟨"ou=b", SCOPE_ONELEVEL, "objectClass=x", some ["cn"], ""⟩,
       ⟨"ou=b", SCOPE_SUBTREE, "objectClass=x", none, "K"⟩]
    ∧ SCOPE_SUBTREE ≠ SCOPE_ONELEVEL
    ∧ (none : Option (List String)) ≠ some ["cn"]
    ∧ ((Search true none
        [Except.ok ⟨[(some "cn=x,ou=b", [])], some "K"⟩, Except.ok ⟨[], none⟩]
        "objectClass=x" (some "ou=b") "dc=r" SCOPE_ONELEVEL (some ["cn"])).1).isOk := by
  refine ⟨by decide, by decide, by decide, by decide⟩

/-- Claim C4 (code bug): a server-side time-limit violation reported while
retrieving results is NOT converted to `errors.QueryTimeoutError`.  Part 1:
an unbound session raises `ADDomainNotConnectedError` (this half of the
claim holds).  Part 2: `ldap.TIMELIMIT_EXCEEDED` raised by the initial
`search_ext` is converted (the only converted site).  Part 3: the same
exception raised by `result3` while fetching the second page propagates
raw — the caller sees `ldap.TIMELIMIT_EXCEEDED`, not the typed error — and
the accumulated first page is discarded. -/
theorem search_timeout_typing_cex :
    (Search false none [] "f" none "dc=r" SCOPE_SUBTREE none).1 =
      Except.error SearchError.notConnected
    ∧ (Search true (some LdapExc.timelimit) [] "f" none "dc=r" SCOPE_SUBTREE none).1 =
      Except.error SearchError.queryTimeout
    ∧ (Search true none
        [Except.ok ⟨[(some "cn=x,dc=r", [])], some "K"⟩, Except.error LdapExc.timelimit]
        "f" none "dc=r" SCOPE_SUBTREE none).1 =
      Except.error (SearchError.rawLdap LdapExc.timelimit)
    ∧ SearchError.rawLdap LdapExc.timelimit ≠ SearchError.queryTimeout := by
  refine ⟨rfl, rfl, rfl, by decide⟩

/-! ### Group membership operations (ad_ldap.py lines 963-1124)

`Domain.GetObjectByName` (lines 393-405) is a search by sAMAccountName that
returns the object (hence its distinguished name) or nothing; the membership
operations only use it through that interface, so it is modelled as a
`Resolver` function from name to optional DN.  `ToBytes`/`ToStr` are
identities in this model (both Python `str` and `bytes` are `String`). -/

/-- Name resolution via `Domain.GetObjectByName`: `some dn` when the search
finds the object, `none` when it finds nothing. -/
abbrev Resolver := String → Option String

/-- Outcome of a group membership operation. -/
inductive GroupOutcome where
  /-- `errors.ADGroupMemberExistsError`. -/
  | memberExists
  /-- `errors.ADGroupMemberDoesNotExistError`. -/
  | memberNotFound
  /-- `errors.ADObjectNotFoundError`. -/
  | objectNotFound
  /-- Uncaught `KeyError` (missing `member` key, or from the commit). -/
  | keyError
  /-- Uncaught exception while reading `distinguished_name` in the commit. -/
  | dnError
  /-- `errors.ADDomainNotConnectedError` from the commit. -/
  | notConnected
  /-- The method returned the boolean `b` (the value of `SetProperties()`). -/
  | returned (b : Bool)
  deriving DecidableEq

instance : DecidableEq (GroupOutcome × ADObjectState × List StoreCall) := inferInstance

/-- Propagate a `SetProperties` outcome out of a membership method. -/
def liftCommit : CommitResult × ADObjectState × List StoreCall →
    GroupOutcome × ADObjectState × List StoreCall
  | (.keyError, st, c) => (.keyError, st, c)
  | (.dnError, st, c) => (.dnError, st, c)
  | (.notConnected, st, c) => (.notConnected, st, c)
  | (.returned b, st, c) => (.returned b, st, c)

/-- Python `set(a) == set(b)` on two value lists. -/
def setEqB (a b : PropVal) : Bool :=
  a.all (fun x => decide (x ∈ b)) && b.all (fun x => decide (x ∈ a))

/-- The strict resolution loop of `Group.OverwriteMembers` (lines
1107-1113): resolve every name in order, raising `ADObjectNotFoundError` at
the first name the lookup cannot find. -/
def resolveAllStrict (resolver : Resolver) : List String → Option (List String)
  | [] => some []
  | n :: rest =>
    match resolver n with
    | none => none
    | some d => (resolveAllStrict resolver rest).map (fun l => d :: l)

/-- `ADObject.GetProperties(['member', ...])` refresh (lines 661-679): every
property of the fetched entry overwrites both `properties` and the
snapshot.  The fetched entry is passed in as `r`. -/
def applyRefresh (r : PropMap) (st : ADObjectState) : ADObjectState :=
  ADObjectState.mk
    (r.foldl (fun m kv => setProp m kv.1 kv.2) st.properties)
    (r.foldl (fun m kv => setProp m kv.1 kv.2) st.snapshot)

/-- `Group.AddMembers` (ad_ldap.py lines 1017-1047): resolve each name,
silently skipping unresolvable ones; raise `ADGroupMemberExistsError`
(before any mutation) if any resolved DN is already a member; otherwise
extend the `member` value list by concatenation (`+=`, NOT set union) and
commit.  A missing `member` key raises `KeyError`. -/
def AddMembers (connected : Bool) (store : StoreFn) (resolver : Resolver)
    (member_list : List String) (st : ADObjectState) :
    GroupOutcome × ADObjectState × List StoreCall :=
  let adds := member_list.filterMap resolver
  match lookupProp st.properties "member" with
  | none => (.keyError, st, [])
  | some cur =>
    if adds.any (fun d => decide ((some d) ∈ cur)) then (.memberExists, st, [])
    else
      liftCommit (SetProperties connected store
        { st with properties := setProp st.properties "member" (cur ++ adds.map some) })

/-- `Group.DeleteMembers` (ad_ldap.py lines 1049-1087): resolve each name,
silently skipping unresolvable ones; if some resolved DN is not currently a
member, refresh the local `member` value from the store and raise
`ADGroupMemberDoesNotExistError`; otherwise set `member` to
`list(set(member) - set(resolved))` and commit.  Python's set iteration
order is unspecified; the model fixes it as first-occurrence order of the
current list (`dedup` then filter), which is set-equal to the Python
result. -/
def DeleteMembers (connected : Bool) (store : StoreFn) (resolver : Resolver)
    (refresh : PropMap) (member_list : List String) (st : ADObjectState) :
    GroupOutcome × ADObjectState × List StoreCall :=
  match lookupProp st.properties "member" with
  | none => (.keyError, st, [])
  | some cur =>
    let toRemove := member_list.filterMap resolver
    if toRemove.any (fun d => decide ((some d) ∉ cur)) then
      (.memberNotFound, applyRefresh refresh st, [])
    else
      let newList := (cur.dedup).filter (fun v => decide (v ∉ toRemove.map some))
      liftCommit (SetProperties connected store
        { st with properties := setProp st.properties "member" newList })

/-- `Group.OverwriteMembers` (ad_ldap.py lines 1089-1123): resolve ALL
names, raising `ADObjectNotFoundError` on any failure; if the resolved set
equals the current member set, return True without writing; otherwise
replace the `member` value wholesale with the resolved list and commit. -/
def OverwriteMembers (connected : Bool) (store : StoreFn) (resolver : Resolver)
    (member_list : List String) (st : ADObjectState) :
    GroupOutcome × ADObjectState × List StoreCall :=
  match resolveAllStrict resolver member_list with
  | none => (.objectNotFound, st, [])
  | some members =>
    match lookupProp st.properties "member" with
    | none => (.keyError, st, [])
    | some cur =>
      if setEqB cur (members.map some) then (.returned true, st, [])
      else
        liftCommit (SetProperties connected store
          { st with properties := setProp st.properties "member" (members.map some) })

/-! ### Lemmas for the membership operations -/

theorem resolveAllStrict_eq_none {resolver : Resolver} {names : List String}
    (h : ∃ n ∈ names, resolver n = none) :
    resolveAllStrict resolver names = none := by
  induction names with
  | nil => simp at h
  | cons n rest ih =>
    obtain ⟨n1, hn1, hres⟩ := h
    rcases List.mem_cons.mp hn1 with hh | hh
    · subst hh
      simp [resolveAllStrict, hres]
    · cases hr : resolver n with
      | none => simp [resolveAllStrict, hr]
      | some d => simp [resolveAllStrict, hr, ih ⟨n1, hh, hres⟩]

theorem resolveAllStrict_eq_some {resolver : Resolver} {names : List String}
    (h : ∀ n ∈ names, (resolver n).isSome) :
    resolveAllStrict resolver names = some (names.filterMap resolver) := by
  induction names with
  | nil => simp [resolveAllStrict]
  | cons n rest ih =>
    obtain ⟨d, hd⟩ := Option.isSome_iff_exists.mp (h n (List.mem_cons_self _ _))
    have ihr := ih (fun n1 hn1 => h n1 (List.mem_cons_of_mem _ hn1))
    simp [resolveAllStrict, hd, ihr, List.filterMap_cons]

theorem setEqB_of_eq {a b : PropVal} (h : a = b) : setEqB a b = true := by
  subst h
  simp [setEqB, List.all_eq_true]

theorem hasKey_setProp {m : PropMap} {k1 : String} (k : String) (v : PropVal)
    (h : hasKey m k1) : hasKey (setProp m k v) k1 := by
  by_cases hk : k1 = k
  · subst hk
    simp [hasKey, lookupProp_setProp_self]
  · simpa [hasKey, lookupProp_setProp_ne _ _ hk] using h

theorem dnOf_setProp_ne (m : PropMap) {k : String} (v : PropVal)
    (h : k ≠ "distinguishedName") : dnOf (setProp m k v) = dnOf m := by
  simp only [dnOf]
  rw [lookupProp_setProp_ne _ _ (fun hh => h hh.symm)]

theorem filter_key_single {m : PropMap} {k : String} {vold : PropVal}
    (hn : (keysOf m).Nodup) (hl : lookupProp m k = some vold) :
    m.filter (fun kv => decide (kv.1 = k)) = [(k, vold)] := by
  induction m with
  | nil => simp [lookupProp] at hl
  | cons kv rest ih =>
    obtain ⟨k1, v1⟩ := kv
    simp only [keysOf, List.map_cons, List.nodup_cons] at hn
    by_cases hk : k1 = k
    · subst hk
      simp only [lookupProp, if_pos rfl] at hl
      have hv : v1 = vold := by injection hl
      subst hv
      have hrest : rest.filter (fun kv => decide (kv.1 = k1)) = [] := by
        rw [List.filter_eq_nil_iff]
        intro kv hkv
        simp only [decide_eq_true_eq]
        intro hcontra
        exact hn.1 (List.mem_map.mpr ⟨kv, hkv, hcontra⟩)
      rw [List.filter_cons_of_pos (by simp), hrest]
    · simp only [lookupProp, if_neg hk] at hl
      rw [List.filter_cons_of_neg (by simp [hk])]
      exact ih hn.2 hl

/-- Setting one existing key to a different value makes the changeset
exactly that key, old side. -/
theorem diffOld_setProp_single {m : PropMap} {k : String} {vold vnew : PropVal}
    (hn : (keysOf m).Nodup) (hl : lookupProp m k = some vold)
    (hne : vnew ≠ vold) :
    diffOld m (setProp m k vnew) = [(k, vold)] := by
  have hcongr : ∀ kv ∈ m, changedB (setProp m k vnew) kv = decide (kv.1 = k) := by
    intro kv hmem
    obtain ⟨k1, v1⟩ := kv
    by_cases hk : k1 = k
    · subst hk
      have hset : lookupProp (setProp m k1 vnew) k1 = some vnew :=
        lookupProp_setProp_self m k1 vnew
      have hv1 : v1 = vold := by
        have hlk := lookupProp_eq_of_mem_nodup hn hmem
        rw [hl] at hlk
        exact (by injection hlk : vold = v1).symm
      subst hv1
      simp [changedB, hset, bne_iff_ne]
      exact hne
    · have hset : lookupProp (setProp m k vnew) k1 = lookupProp m k1 :=
        lookupProp_setProp_ne _ _ hk
      have h2 : lookupProp m k1 = some v1 := lookupProp_eq_of_mem_nodup hn hmem
      simp [changedB, hset, h2, hk]
  rw [diffOld, List.filter_congr hcongr]
  exact filter_key_single hn hl

/-- Setting one existing key to a different value makes the changeset
exactly that key, new side. -/
theorem diffNew_setProp_single {m : PropMap} {k : String} {vold vnew : PropVal}
    (hn : (keysOf m).Nodup) (hl : lookupProp m k = some vold)
    (hne : vnew ≠ vold) :
    diffNew m (setProp m k vnew) = [(k, vnew)] := by
  simp only [diffNew, diffOld_setProp_single hn hl hne, List.map_cons, List.map_nil]
  rw [lookupProp_setProp_self]
  rfl

/-- Committing after setting one key `k ≠ distinguishedName` of a freshly
synced entry (snapshot = properties) to a different value: the store is
called once with exactly that key, and on acknowledgement the commit
returns true with both maps updated. -/
theorem setProperties_after_setProp (store : StoreFn) {props : PropMap}
    {k : String} {vold vnew : PropVal} {dn : String}
    (hn : (keysOf props).Nodup) (hl : lookupProp props k = some vold)
    (hne : vnew ≠ vold) (hkdn : k ≠ "distinguishedName")
    (hdn : dnOf props = some dn)
    (hs : store dn [(k, vold)] [(k, vnew)] = 103) :
    SetProperties true store (ADObjectState.mk (setProp props k vnew) props) =
      (CommitResult.returned true,
       ADObjectState.mk (setProp props k vnew) (setProp props k vnew),
       [(dn, [(k, vold)], [(k, vnew)])]) := by
  have hall : ∀ kv ∈ (ADObjectState.mk (setProp props k vnew) props).snapshot,
      hasKey (ADObjectState.mk (setProp props k vnew) props).properties kv.1 := by
    intro kv hkv
    exact hasKey_setProp k vnew (hasKey_of_mem hkv)
  have hcd := computeDiff_eq_spec _ _ hall
  rw [show (ADObjectState.mk (setProp props k vnew) props).snapshot = props from rfl,
      show (ADObjectState.mk (setProp props k vnew) props).properties = setProp props k vnew from rfl,
      diffOld_setProp_single hn hl hne, diffNew_setProp_single hn hl hne] at hcd
  have hdn2 : dnOf (ADObjectState.mk (setProp props k vnew) props).properties = some dn := by
    rw [show (ADObjectState.mk (setProp props k vnew) props).properties = setProp props k vnew from rfl,
        dnOf_setProp_ne _ _ hkdn]
    exact hdn
  have := SetProperties_eq_of store hcd hdn2
  rw [this, if_pos hs]

/-- Claim C5: `OverwriteMembers` fails with `ADObjectNotFoundError` when any
name fails to resolve (no silent skip); when every name resolves and the
resolved set equals the current member set it performs no write and returns
success; otherwise it replaces the `member` value wholesale with the
resolved names and commits (shown here for a synced entry and an
acknowledging store: one differential-modify call replacing exactly
`member`, returning true). -/
theorem overwriteMembers_spec (store : StoreFn) (resolver : Resolver)
    (names : List String) (st : ADObjectState) :
    ((∃ n ∈ names, resolver n = none) →
      OverwriteMembers true store resolver names st =
        (GroupOutcome.objectNotFound, st, []))
    ∧ (∀ members cur, resolveAllStrict resolver names = some members →
        lookupProp st.properties "member" = some cur →
        (setEqB cur (members.map some) = true →
          OverwriteMembers true store resolver names st =
            (GroupOutcome.returned true, st, []))
        ∧ (setEqB cur (members.map some) = false →
           st.snapshot = st.properties →
           (keysOf st.properties).Nodup →
           ∀ dn, dnOf st.properties = some dn →
           store dn [("member", cur)] [("member", members.map some)] = 103 →
           OverwriteMembers true store resolver names st =
             (GroupOutcome.returned true,
              ADObjectState.mk (setProp st.properties "member" (members.map some))
                (setProp st.properties "member" (members.map some)),
              [(dn, [("member", cur)], [("member", members.map some)])]))) := by
  constructor
  · intro h
    simp [OverwriteMembers, resolveAllStrict_eq_none h]
  · intro members cur hres hcur
    constructor
    · intro hseq
      simp [OverwriteMembers, hres, hcur, hseq]
    · intro hseq hsnap hnodup dn hdn hs
      have hne : (members.map some : PropVal) ≠ cur := by
        intro hh
        have ht := setEqB_of_eq hh.symm
        rw [ht] at hseq
        simp at hseq
      have hstate : ({ st with properties := setProp st.properties "member" (members.map some) } : ADObjectState)
          = ADObjectState.mk (setProp st.properties "member" (members.map some)) st.properties := by
        rw [show ({ st with properties := setProp st.properties "member" (members.map some) } : ADObjectState)
              = ADObjectState.mk (setProp st.properties "member" (members.map some)) st.snapshot from rfl,
            hsnap]
      have hcommit := setProperties_after_setProp store
        hnodup hcur hne (by decide) hdn hs
      simp only [OverwriteMembers, hres, hcur, hseq]
      rw [if_neg (by simp [hseq]), hstate, hcommit]
      rfl

/-- Witness for C5 at a concrete group: current member `cn=old,dc=x`,
overwritten with the resolved name `u1`; the store receives exactly the
wholesale member replacement and the call returns true. -/
theorem overwriteMembers_spec_witness :
    OverwriteMembers true (fun _ _ _ => 103)
      (fun n => if n = "u1" then some "cn=u1,dc=x" else none) ["u1"]
      (ADObjectState.mk
        [("distinguishedName", [some "cn=g,dc=x"]), ("member", [some "cn=old,dc=x"])]
        [("distinguishedName", [some "cn=g,dc=x"]), ("member", [some "cn=old,dc=x"])]) =
      (GroupOutcome.returned true,
       ADObjectState.mk
        [("distinguishedName", [some "cn=g,dc=x"]), ("member", [some "cn=u1,dc=x"])]
        [("distinguishedName", [some "cn=g,dc=x"]), ("member", [some "cn=u1,dc=x"])],
       [("cn=g,dc=x", [("member", [some "cn=old,dc=x"])],
         [("member", [some "cn=u1,dc=x"])])]) := by
  have h := ((overwriteMembers_spec (fun _ _ _ => 103)
      (fun n => if n = "u1" then some "cn=u1,dc=x" else none) ["u1"]
      (ADObjectState.mk
        [("distinguishedName", [some "cn=g,dc=x"]), ("member", [some "cn=old,dc=x"])]
        [("distinguishedName", [some "cn=g,dc=x"]), ("member", [some "cn=old,dc=x"])])).2
      ["cn=u1,dc=x"] [some "cn=old,dc=x"] rfl rfl).2
      (by decide) rfl (by decide) "cn=g,dc=x" rfl rfl
  exact h.trans rfl

/-! ### Lemmas for order-independence of the membership operations -/

/-- The `member` value list of an entry (empty if the key is absent). -/
def memberValsOf (st : ADObjectState) : PropVal :=
  (lookupProp st.properties "member").getD []

theorem any_eq_of_perm {α : Type} {l1 l2 : List α} (h : List.Perm l1 l2)
    (p : α → Bool) : l1.any p = l2.any p := by
  induction h with
  | nil => rfl
  | cons a _ ih => simp [List.any_cons, ih]
  | swap a b l =>
    simp only [List.any_cons]
    rw [Bool.or_left_comm]
  | trans _ _ ih1 ih2 => rw [ih1, ih2]

theorem all_eq_of_perm {α : Type} {l1 l2 : List α} (h : List.Perm l1 l2)
    (p : α → Bool) : l1.all p = l2.all p := by
  induction h with
  | nil => rfl
  | cons a _ ih => simp [List.all_cons, ih]
  | swap a b l =>
    simp only [List.all_cons]
    rw [Bool.and_left_comm]
  | trans _ _ ih1 ih2 => rw [ih1, ih2]

theorem setEqB_perm_right {a b1 b2 : PropVal} (h : List.Perm b1 b2) :
    setEqB a b1 = setEqB a b2 := by
  simp only [setEqB]
  rw [all_eq_of_perm h]
  have hfun : (fun x => decide (x ∈ b1)) = (fun x => decide (x ∈ b2)) := by
    funext x
    exact decide_eq_decide.mpr h.mem_iff
  rw [hfun]

theorem setProp_eq_self {m : PropMap} {k : String} {v : PropVal}
    (h : lookupProp m k = some v) : setProp m k v = m := by
  induction m with
  | nil => simp [lookupProp] at h
  | cons kv rest ih =>
    obtain ⟨k1, v1⟩ := kv
    by_cases hk : k1 = k
    · subst hk
      simp only [lookupProp, if_pos rfl] at h
      have hv : v1 = v := by injection h
      subst hv
      simp [setProp]
    · simp only [lookupProp, if_neg hk] at h
      simp [setProp, hk, ih h]

theorem resolveAllStrict_none_imp {resolver : Resolver} {names : List String}
    (h : resolveAllStrict resolver names = none) :
    ∃ n ∈ names, resolver n = none := by
  induction names with
  | nil => simp [resolveAllStrict] at h
  | cons n rest ih =>
    cases hr : resolver n with
    | none => exact ⟨n, List.mem_cons_self _ _, hr⟩
    | some d =>
      simp only [resolveAllStrict, hr] at h
      cases hrr : resolveAllStrict resolver rest with
      | none =>
        obtain ⟨n1, hn1, hx⟩ := ih hrr
        exact ⟨n1, List.mem_cons_of_mem _ hn1, hx⟩
      | some l =>
        rw [hrr] at h
        simp at h

/-- Extracted commit branch of `OverwriteMembers` for a synced entry and an
acknowledging store. -/
theorem overwriteMembers_replace_eq (store : StoreFn) (resolver : Resolver)
    (names : List String) (st : ADObjectState) (members : List String)
    (cur : PropVal) (dn : String)
    (hres : resolveAllStrict resolver names = some members)
    (hcur : lookupProp st.properties "member" = some cur)
    (hseq : setEqB cur (members.map some) = false)
    (hsnap : st.snapshot = st.properties)
    (hnodup : (keysOf st.properties).Nodup)
    (hdn : dnOf st.properties = some dn)
    (hs : store dn [("member", cur)] [("member", members.map some)] = 103) :
    OverwriteMembers true store resolver names st =
      (GroupOutcome.returned true,
       ADObjectState.mk (setProp st.properties "member" (members.map some))
         (setProp st.properties "member" (members.map some)),
       [(dn, [("member", cur)], [("member", members.map some)])]) := by
  have hne : (members.map some : PropVal) ≠ cur := by
    intro hh
    have ht := setEqB_of_eq hh.symm
    rw [ht] at hseq
    simp at hseq
  have hstate : ({ st with properties := setProp st.properties "member" (members.map some) } : ADObjectState)
      = ADObjectState.mk (setProp st.properties "member" (members.map some)) st.properties := by
    rw [show ({ st with properties := setProp st.properties "member" (members.map some) } : ADObjectState)
          = ADObjectState.mk (setProp st.properties "member" (members.map some)) st.snapshot from rfl,
        hsnap]
  have hcommit := setProperties_after_setProp store
    hnodup hcur hne (by decide) hdn hs
  simp only [OverwriteMembers, hres, hcur]
  rw [if_neg (by simp [hseq]), hstate, hcommit]
  rfl

/-- Outcome of the commit branch of `AddMembers` for a synced entry and an
acknowledging store: returns true and the member value becomes the old list
extended by the resolved names, by concatenation. -/
theorem addMembers_commit_outcome (store : StoreFn) (resolver : Resolver)
    (names : List String) (st : ADObjectState) (cur : PropVal) (dn : String)
    (hsnap : st.snapshot = st.properties)
    (hnodup : (keysOf st.properties).Nodup)
    (hdn : dnOf st.properties = some dn)
    (hstore : ∀ o n2, store dn o n2 = 103)
    (hcur : lookupProp st.properties "member" = some cur)
    (hex : (names.filterMap resolver).any (fun d => decide ((some d) ∈ cur)) = false) :
    (AddMembers true store resolver names st).1 = GroupOutcome.returned true
    ∧ memberValsOf (AddMembers true store resolver names st).2.1 =
        cur ++ (names.filterMap resolver).map some := by
  have hstate : ({ st with properties := setProp st.properties "member" (cur ++ (names.filterMap resolver).map some) } : ADObjectState)
      = ADObjectState.mk (setProp st.properties "member" (cur ++ (names.filterMap resolver).map some)) st.properties := by
    rw [show ({ st with properties := setProp st.properties "member" (cur ++ (names.filterMap resolver).map some) } : ADObjectState)
          = ADObjectState.mk (setProp st.properties "member" (cur ++ (names.filterMap resolver).map some)) st.snapshot from rfl,
        hsnap]
  by_cases hnil : names.filterMap resolver = []
  · have hL : cur ++ (names.filterMap resolver).map some = cur := by simp [hnil]
    have hsp : setProp st.properties "member" (cur ++ (names.filterMap resolver).map some) = st.properties := by
      rw [hL]
      exact setProp_eq_self hcur
    have hone : ADObjectState.mk (setProp st.properties "member" (cur ++ (names.filterMap resolver).map some)) st.properties
        = ADObjectState.mk st.properties st.properties := by rw [hsp]
    have hcd : computeDiff (ADObjectState.mk st.properties st.properties).snapshot
        (ADObjectState.mk st.properties st.properties).properties = some ([], []) :=
      computeDiff_self st.properties hnodup
    have hself := SetProperties_eq_of store hcd hdn
    rw [if_pos (hstore [] [])] at hself
    constructor
    · simp only [AddMembers, hcur]
      rw [if_neg (by simp [hex]), hstate, hone, hself]
      rfl
    · simp only [AddMembers, hcur]
      rw [if_neg (by simp [hex]), hstate, hone, hself]
      simp [memberValsOf, liftCommit, hcur, hL]
  · have hpos : 0 < ((names.filterMap resolver).map some).length := by
      rw [List.length_map]
      exact List.length_pos.mpr hnil
    have hne : (cur ++ (names.filterMap resolver).map some) ≠ cur := by
      intro hh
      have hlen := congrArg List.length hh
      rw [List.length_append] at hlen
      omega
    have hcommit := setProperties_after_setProp store
      hnodup hcur hne (by decide) hdn (hstore _ _)
    constructor
    · simp only [AddMembers, hcur]
      rw [if_neg (by simp [hex]), hstate, hcommit]
      rfl
    · simp only [AddMembers, hcur]
      rw [if_neg (by simp [hex]), hstate, hcommit]
      simp [memberValsOf, liftCommit, lookupProp_setProp_self]

/-- Counterexample to C6 as stated: `AddMembers` extends `member` by list
concatenation (`+=`, ad_ldap.py line 1046), so the same resolvable,
not-yet-member name listed twice leaves that DN in the member value exactly
twice, not once. -/
theorem addMembers_duplicate_name_cex :
    (memberValsOf (AddMembers true (fun _ _ _ => 103)
        (fun n => if n = "u1" then some "cn=u1,dc=x" else none) ["u1", "u1"]
        (ADObjectState.mk
          [("distinguishedName", [some "cn=g,dc=x"]), ("member", [])]
          [("distinguishedName", [some "cn=g,dc=x"]), ("member", [])])).2.1).count
      (some "cn=u1,dc=x") = 2
    ∧ (memberValsOf (AddMembers true (fun _ _ _ => 103)
        (fun n => if n = "u1" then some "cn=u1,dc=x" else none) ["u1", "u1"]
        (ADObjectState.mk
          [("distinguishedName", [some "cn=g,dc=x"]), ("member", [])]
          [("distinguishedName", [some "cn=g,dc=x"]), ("member", [])])).2.1).count
      (some "cn=u1,dc=x") ≠ 1 := by
  constructor
  · rfl
  · decide

/-- A value already present in a list is absorbed by the set-equality test:
`set(a) == set(x :: b)` agrees with `set(a) == set(b)` when `x ∈ b`. -/
theorem setEqB_cons_of_mem {a b : PropVal} {x : PVal} (hx : x ∈ b) :
    setEqB a (x :: b) = setEqB a b := by
  simp only [setEqB, List.all_cons]
  have h1 : (fun v => decide (v ∈ x :: b)) = (fun v => decide (v ∈ b)) := by
    funext v
    apply decide_eq_decide.mpr
    constructor
    · intro h
      rcases List.mem_cons.mp h with h | h
      · exact h ▸ hx
      · exact h
    · intro h
      exact List.mem_cons_of_mem _ h
  rw [h1]
  cases hall : b.all (fun v => decide (v ∈ a)) with
  | false => simp [hall]
  | true =>
    have hxa : x ∈ a := by
      have := List.all_eq_true.mp hall x hx
      simpa using this
    simp [hall, hxa]

/-- Duplicating a name in the input of `DeleteMembers` changes nothing: the
raise condition, the refresh-and-raise state and the committed
`list(set(member) - set(resolved))` value are all membership-based, so the
results are identical. -/
theorem deleteMembers_dup_collapse (store : StoreFn) (resolver : Resolver)
    (refresh : PropMap) (n : String) (ns : List String) (st : ADObjectState) :
    DeleteMembers true store resolver refresh (n :: n :: ns) st =
      DeleteMembers true store resolver refresh (n :: ns) st := by
  cases hcur : lookupProp st.properties "member" with
  | none => simp [DeleteMembers, hcur]
  | some cur =>
    cases hr : resolver n with
    | none =>
      have hfm : (n :: n :: ns).filterMap resolver = (n :: ns).filterMap resolver := by
        simp [List.filterMap_cons, hr]
      simp only [DeleteMembers, hcur, hfm]
    | some d =>
      have hfm1 : (n :: n :: ns).filterMap resolver = d :: d :: ns.filterMap resolver := by
        simp [List.filterMap_cons, hr]
      have hfm2 : (n :: ns).filterMap resolver = d :: ns.filterMap resolver := by
        simp [List.filterMap_cons, hr]
      have hany : (d :: d :: ns.filterMap resolver).any (fun x => decide ((some x) ∉ cur))
          = (d :: ns.filterMap resolver).any (fun x => decide ((some x) ∉ cur)) := by
        cases hpd : decide ((some d) ∉ cur) <;> simp [List.any_cons, hpd]
      have hfil : (cur.dedup).filter
            (fun v => decide (v ∉ (d :: d :: ns.filterMap resolver).map some))
          = (cur.dedup).filter
            (fun v => decide (v ∉ (d :: ns.filterMap resolver).map some)) := by
        apply List.filter_congr
        intro v _
        apply decide_eq_decide.mpr
        apply not_congr
        simp only [List.map_cons, List.mem_cons]
        tauto
      simp only [DeleteMembers, hcur, hfm1, hfm2]
      rw [hany, hfil]

/-- Duplicating a name in the input of `OverwriteMembers` does not disturb
the set-equality short-circuit: with the duplicate, the resolved list gains
a repeated DN, which set comparison absorbs, so both calls return success
with no write. -/
theorem overwriteMembers_dup_shortcircuit (store : StoreFn) (resolver : Resolver)
    (n : String) (ns : List String) (st : ADObjectState)
    (members : List String) (cur : PropVal)
    (hres : resolveAllStrict resolver (n :: ns) = some members)
    (hcur : lookupProp st.properties "member" = some cur)
    (hseq : setEqB cur (members.map some) = true) :
    OverwriteMembers true store resolver (n :: n :: ns) st =
      (GroupOutcome.returned true, st, [])
    ∧ OverwriteMembers true store resolver (n :: ns) st =
      (GroupOutcome.returned true, st, []) := by
  have hall : ∀ m ∈ n :: ns, (resolver m).isSome := by
    intro m hm
    cases hr : resolver m with
    | some d2 => rfl
    | none =>
      rw [resolveAllStrict_eq_none ⟨m, hm, hr⟩] at hres
      simp at hres
  have hall2 : ∀ m ∈ n :: n :: ns, (resolver m).isSome := by
    intro m hm
    rcases List.mem_cons.mp hm with hh | hh
    · exact hh ▸ hall n (List.mem_cons_self _ _)
    · exact hall m hh
  have hres1' := resolveAllStrict_eq_some hall
  have hres2 := resolveAllStrict_eq_some hall2
  have hmembers : members = (n :: ns).filterMap resolver := by
    have hx : some members = some ((n :: ns).filterMap resolver) := by
      rw [← hres, hres1']
    exact Option.some.inj hx
  obtain ⟨d, hd⟩ : ∃ d, resolver n = some d :=
    Option.isSome_iff_exists.mp (hall n (List.mem_cons_self _ _))
  have hfm2 : (n :: ns).filterMap resolver = d :: ns.filterMap resolver := by
    simp [List.filterMap_cons, hd]
  have hfm1 : (n :: n :: ns).filterMap resolver = d :: (n :: ns).filterMap resolver := by
    simp [List.filterMap_cons, hd]
  have hdmem : (some d) ∈ ((n :: ns).filterMap resolver).map some := by
    rw [hfm2]
    simp
  have hseq1 : setEqB cur (((n :: ns).filterMap resolver).map some) = true := by
    rw [← hmembers]
    exact hseq
  have hseq2 : setEqB cur (((n :: n :: ns).filterMap resolver).map some) = true := by
    rw [hfm1, List.map_cons, setEqB_cons_of_mem hdmem]
    exact hseq1
  constructor
  · simp [OverwriteMembers, hres2, hcur, hseq2]
  · simp [OverwriteMembers, hres1', hcur, hseq1]

/-- Claim C6 as amended: for a synced entry and an acknowledging store, all
three membership operations give outcomes and resulting member SETS that
are independent of the ordering of the input name list (`DeleteMembers`
yields fully identical results, since it genuinely works on sets), and
duplicate input names collapse via set semantics for `DeleteMembers`
(listing a name twice gives the identical result) and for
`OverwriteMembers`' set-equality short-circuit (the duplicate does not
defeat the no-write success path); but `AddMembers` appends resolved DNs by
list concatenation, so a resolvable, not-yet-member name listed twice
leaves its DN in the member value exactly twice — once per occurrence —
rather than once. -/
theorem membership_set_semantics_amended (store : StoreFn) (resolver : Resolver)
    (refresh : PropMap) (names1 names2 : List String) (st : ADObjectState)
    (dn : String)
    (hp : List.Perm names1 names2)
    (hsnap : st.snapshot = st.properties)
    (hnodup : (keysOf st.properties).Nodup)
    (hdn : dnOf st.properties = some dn)
    (hstore : ∀ o n, store dn o n = 103) :
    ((AddMembers true store resolver names1 st).1 =
       (AddMembers true store resolver names2 st).1
     ∧ ∀ x, (x ∈ memberValsOf (AddMembers true store resolver names1 st).2.1 ↔
             x ∈ memberValsOf (AddMembers true store resolver names2 st).2.1))
    ∧ DeleteMembers true store resolver refresh names1 st =
        DeleteMembers true store resolver refresh names2 st
    ∧ ((OverwriteMembers true store resolver names1 st).1 =
         (OverwriteMembers true store resolver names2 st).1
       ∧ ∀ x, (x ∈ memberValsOf (OverwriteMembers true store resolver names1 st).2.1 ↔
               x ∈ memberValsOf (OverwriteMembers true store resolver names2 st).2.1))
    ∧ (∀ n d cur, resolver n = some d →
        lookupProp st.properties "member" = some cur →
        (some d) ∉ cur →
        (memberValsOf (AddMembers true store resolver [n, n] st).2.1).count (some d) =
          cur.count (some d) + 2)
    ∧ (∀ n ns, DeleteMembers true store resolver refresh (n :: n :: ns) st =
        DeleteMembers true store resolver refresh (n :: ns) st)
    ∧ (∀ n ns members cur,
        resolveAllStrict resolver (n :: ns) = some members →
        lookupProp st.properties "member" = some cur →
        setEqB cur (members.map some) = true →
        OverwriteMembers true store resolver (n :: n :: ns) st =
          (GroupOutcome.returned true, st, [])
        ∧ OverwriteMembers true store resolver (n :: ns) st =
          (GroupOutcome.returned true, st, [])) := by
  have hpr : List.Perm (names1.filterMap resolver) (names2.filterMap resolver) :=
    hp.filterMap resolver
  refine ⟨?_, ?_, ?_, ?_, ?_, ?_⟩
  · -- AddMembers: outcome and member set are order-independent
    cases hcur : lookupProp st.properties "member" with
    | none =>
      exact ⟨by simp [AddMembers, hcur], fun x => by simp [AddMembers, hcur]⟩
    | some cur =>
      have hany := any_eq_of_perm hpr (fun d => decide ((some d) ∈ cur))
      by_cases hex1 : (names1.filterMap resolver).any (fun d => decide ((some d) ∈ cur)) = true
      · have hex2 : (names2.filterMap resolver).any (fun d => decide ((some d) ∈ cur)) = true := by
          rw [← hany]
          exact hex1
        exact ⟨by simp [AddMembers, hcur, hex1, hex2],
               fun x => by simp [AddMembers, hcur, hex1, hex2]⟩
      · have hex1f : (names1.filterMap resolver).any (fun d => decide ((some d) ∈ cur)) = false :=
          Bool.eq_false_iff.mpr hex1
        have hex2f : (names2.filterMap resolver).any (fun d => decide ((some d) ∈ cur)) = false := by
          rw [← hany]
          exact hex1f
        have o1 := addMembers_commit_outcome store resolver names1 st cur dn
          hsnap hnodup hdn hstore hcur hex1f
        have o2 := addMembers_commit_outcome store resolver names2 st cur dn
          hsnap hnodup hdn hstore hcur hex2f
        refine ⟨o1.1.trans o2.1.symm, fun x => ?_⟩
        rw [o1.2, o2.2]
        exact (List.Perm.append_left cur (hpr.map some)).mem_iff
  · -- DeleteMembers: fully identical results
    cases hcur : lookupProp st.properties "member" with
    | none => simp [DeleteMembers, hcur]
    | some cur =>
      have hany := any_eq_of_perm hpr (fun d => decide ((some d) ∉ cur))
      have hfil : (cur.dedup).filter (fun v => decide (v ∉ (names1.filterMap resolver).map some))
          = (cur.dedup).filter (fun v => decide (v ∉ (names2.filterMap resolver).map some)) := by
        apply List.filter_congr
        intro v _
        apply decide_eq_decide.mpr
        constructor
        · intro hnm hmem
          exact hnm ((hpr.map some).mem_iff.mpr hmem)
        · intro hnm hmem
          exact hnm ((hpr.map some).mem_iff.mp hmem)
      simp only [DeleteMembers, hcur]
      rw [hany, hfil]
  · -- OverwriteMembers: outcome and member set are order-independent
    cases hnone : resolveAllStrict resolver names1 with
    | none =>
      obtain ⟨n, hn, hr⟩ := resolveAllStrict_none_imp hnone
      have hnone2 : resolveAllStrict resolver names2 = none :=
        resolveAllStrict_eq_none ⟨n, hp.mem_iff.mp hn, hr⟩
      exact ⟨by simp [OverwriteMembers, hnone, hnone2],
             fun x => by simp [OverwriteMembers, hnone, hnone2]⟩
    | some members1 =>
      have hallsome1 : ∀ n ∈ names1, (resolver n).isSome := by
        intro n hn
        cases hr : resolver n with
        | some d => rfl
        | none =>
          rw [resolveAllStrict_eq_none ⟨n, hn, hr⟩] at hnone
          simp at hnone
      have hallsome2 : ∀ n ∈ names2, (resolver n).isSome :=
        fun n hn => hallsome1 n (hp.mem_iff.mpr hn)
      have hm1 : members1 = names1.filterMap resolver := by
        have hh := resolveAllStrict_eq_some hallsome1
        rw [hnone] at hh
        injection hh
      have hnone2 := resolveAllStrict_eq_some hallsome2
      have hmm : List.Perm (members1.map some) ((names2.filterMap resolver).map some) := by
        rw [hm1]
        exact hpr.map some
      cases hcur : lookupProp st.properties "member" with
      | none =>
        exact ⟨by simp [OverwriteMembers, hnone, hnone2, hcur],
               fun x => by simp [OverwriteMembers, hnone, hnone2, hcur]⟩
      | some cur =>
        have hseq : setEqB cur (members1.map some)
            = setEqB cur ((names2.filterMap resolver).map some) :=
          setEqB_perm_right hmm
        by_cases hq : setEqB cur (members1.map some) = true
        · have hq2 : setEqB cur ((names2.filterMap resolver).map some) = true := by
            rw [← hseq]
            exact hq
          exact ⟨by simp [OverwriteMembers, hnone, hnone2, hcur, hq, hq2],
                 fun x => by simp [OverwriteMembers, hnone, hnone2, hcur, hq, hq2]⟩
        · have hqf : setEqB cur (members1.map some) = false := Bool.eq_false_iff.mpr hq
          have hqf2 : setEqB cur ((names2.filterMap resolver).map some) = false := by
            rw [← hseq]
            exact hqf
          have h1 := overwriteMembers_replace_eq store resolver names1 st members1 cur dn
            hnone hcur hqf hsnap hnodup hdn (hstore _ _)
          have h2 := overwriteMembers_replace_eq store resolver names2 st
            (names2.filterMap resolver) cur dn
            hnone2 hcur hqf2 hsnap hnodup hdn (hstore _ _)
          refine ⟨?_, fun x => ?_⟩
          · rw [h1, h2]
          · rw [h1, h2]
            simp only [memberValsOf, lookupProp_setProp_self, Option.getD_some]
            exact hmm.mem_iff
  · -- AddMembers duplicates: once per occurrence, not once
    intro n d cur hresn hcur hnotm
    have hfm : ([n, n].filterMap resolver) = [d, d] := by
      simp [List.filterMap_cons, hresn]
    have hex : ([n, n].filterMap resolver).any (fun x => decide ((some x) ∈ cur)) = false := by
      rw [hfm]
      simp [hnotm]
    have hout := addMembers_commit_outcome store resolver [n, n] st cur dn
      hsnap hnodup hdn hstore hcur hex
    rw [hout.2, hfm]
    simp [List.count_append, List.count_cons]
  · -- DeleteMembers: a duplicated input name collapses, identical results
    intro n ns
    exact deleteMembers_dup_collapse store resolver refresh n ns st
  · -- OverwriteMembers: the short-circuit absorbs a duplicated input name
    intro n ns members cur hres hcur hseq
    exact overwriteMembers_dup_shortcircuit store resolver n ns st members cur
      hres hcur hseq

/-- Witness for the amended C6: two permuted two-name inputs added to an
empty member list give the same outcome and the same member set, the
duplicated-name count comes out as two, deleting with a duplicated name
gives the identical result, and the overwrite short-circuit fires with the
duplicated name. -/
theorem membership_set_semantics_amended_witness :
    List.Perm ["a", "b"] ["b", "a"]
    ∧ (AddMembers true (fun _ _ _ => 103)
        (fun n => if n = "a" then some "cn=a,dc=x" else some "cn=b,dc=x") ["a", "b"]
        (ADObjectState.mk
          [("distinguishedName", [some "cn=g,dc=x"]), ("member", [])]
          [("distinguishedName", [some "cn=g,dc=x"]), ("member", [])])).1 =
      (AddMembers true (fun _ _ _ => 103)
        (fun n => if n = "a" then some "cn=a,dc=x" else some "cn=b,dc=x") ["b", "a"]
        (ADObjectState.mk
          [("distinguishedName", [some "cn=g,dc=x"]), ("member", [])]
          [("distinguishedName", [some "cn=g,dc=x"]), ("member", [])])).1
    ∧ (memberValsOf (AddMembers true (fun _ _ _ => 103)
        (fun n => if n = "a" then some "cn=a,dc=x" else some "cn=b,dc=x") ["a", "a"]
        (ADObjectState.mk
          [("distinguishedName", [some "cn=g,dc=x"]), ("member", [])]
          [("distinguishedName", [some "cn=g,dc=x"]), ("member", [])])).2.1).count
      (some "cn=a,dc=x") = 0 + 2
    ∧ DeleteMembers true (fun _ _ _ => 103)
        (fun n => if n = "a" then some "cn=a,dc=x" else some "cn=b,dc=x") [] ["a", "a"]
        (ADObjectState.mk
          [("distinguishedName", [some "cn=g,dc=x"]), ("member", [])]
          [("distinguishedName", [some "cn=g,dc=x"]), ("member", [])]) =
      DeleteMembers true (fun _ _ _ => 103)
        (fun n => if n = "a" then some "cn=a,dc=x" else some "cn=b,dc=x") [] ["a"]
        (ADObjectState.mk
          [("distinguishedName", [some "cn=g,dc=x"]), ("member", [])]
          [("distinguishedName", [some "cn=g,dc=x"]), ("member", [])])
    ∧ OverwriteMembers true (fun _ _ _ => 103)
        (fun n => if n = "a" then some "cn=a,dc=x" else some "cn=b,dc=x") ["a", "a"]
        (ADObjectState.mk
          [("distinguishedName", [some "cn=g,dc=x"]), ("member", [some "cn=a,dc=x"])]
          [("distinguishedName", [some "cn=g,dc=x"]), ("member", [some "cn=a,dc=x"])]) =
      (GroupOutcome.returned true,
       ADObjectState.mk
          [("distinguishedName", [some "cn=g,dc=x"]), ("member", [some "cn=a,dc=x"])]
          [("distinguishedName", [some "cn=g,dc=x"]), ("member", [some "cn=a,dc=x"])],
       []) := by
  have hperm : List.Perm ["a", "b"] ["b", "a"] := by decide
  have h := membership_set_semantics_amended (fun _ _ _ => 103)
    (fun n => if n = "a" then some "cn=a,dc=x" else some "cn=b,dc=x") []
    ["a", "b"] ["b", "a"]
    (ADObjectState.mk
      [("distinguishedName", [some "cn=g,dc=x"]), ("member", [])]
      [("distinguishedName", [some "cn=g,dc=x"]), ("member", [])])
    "cn=g,dc=x" hperm rfl (by decide) rfl (fun _ _ => rfl)
  have h2 := membership_set_semantics_amended (fun _ _ _ => 103)
    (fun n => if n = "a" then some "cn=a,dc=x" else some "cn=b,dc=x") []
    ["a", "b"] ["b", "a"]
    (ADObjectState.mk
      [("distinguishedName", [some "cn=g,dc=x"]), ("member", [some "cn=a,dc=x"])]
      [("distinguishedName", [some "cn=g,dc=x"]), ("member", [some "cn=a,dc=x"])])
    "cn=g,dc=x" hperm rfl (by decide) rfl (fun _ _ => rfl)
  refine ⟨hperm, h.1.1, ?_, h.2.2.2.2.1 "a" [], ?_⟩
  · have hd := h.2.2.2.1 "a" "cn=a,dc=x" [] rfl rfl (by simp)
    simpa using hd
  · exact (h2.2.2.2.2.2 "a" [] ["cn=a,dc=x"] [some "cn=a,dc=x"] rfl rfl (by decide)).1

/-! ### Type resolution (`Domain.GuessObjectType`, ad_ldap.py lines 547-575) -/

/-- Python substring test `needle in hay` (case-sensitive). -/
def pyIn (needle hay : String) : Bool :=
  (List.range (hay.toList.length + 1)).any
    (fun i => needle.toList.isPrefixOf (hay.toList.drop i))

/-- Which category-scoped re-query the source dispatches to. -/
inductive TypedLookup where
  | computer
  | user
  | group
  | container
  deriving DecidableEq

/-- Outcome of `Domain.GuessObjectType`. -/
inductive GuessResult where
  /-- `errors.ADObjectClassOnlyError`: the argument is not an `ADObject`. -/
  | classMismatch
  /-- Uncaught `AttributeError`: the branch calls `self.GetContainterByDN`
  (ad_ldap.py lines 571 and 573), a misspelling of `GetContainerByDN`; no
  method of that name exists anywhere on `Domain`. -/
  | attributeError
  /-- The corresponding `Get...ByDN` re-query is issued for this dn and its
  result returned. -/
  | lookedUp (t : TypedLookup) (dn : String)
  /-- No marker matched: the object is returned unchanged. -/
  | unchanged
  deriving DecidableEq

/-- `Domain.GuessObjectType` (ad_ldap.py lines 547-575): raise
`ADObjectClassOnlyError` for a non-ADObject; otherwise test the object's
`objectCategory` string for the five markers in order and dispatch to the
category-scoped lookup by distinguished name.  The Computer / Person /
Group branches call existing methods; the Container and Organizational-Unit
branches call the undefined `GetContainterByDN`, which raises
`AttributeError` at runtime. -/
def GuessObjectType (isADObject : Bool) (object_category : String)
    (dn : String) : GuessResult :=
  if !isADObject then .classMismatch
  else if pyIn "CN=Computer" object_category then .lookedUp .computer dn
  else if pyIn "CN=Person" object_category then .lookedUp .user dn
  else if pyIn "CN=Group" object_category then .lookedUp .group dn
  else if pyIn "CN=Container" object_category then .attributeError
  else if pyIn "CN=Organizational-Unit" object_category then .attributeError
  else .unchanged

/-- Claim C7 (code bug): three of the five markers dispatch to the
matching typed lookup, a non-matching category is returned unchanged and a
non-entry argument fails with the class-mismatch error — but the
container-CN and organizational-unit markers do NOT return the container
view: they hit the misspelled `GetContainterByDN` and raise
`AttributeError`. -/
theorem guessObjectType_container_attribute_error_cex :
    GuessObjectType false "CN=Person,CN=Schema,CN=Configuration,DC=x" "cn=u,dc=x" =
      GuessResult.classMismatch
    ∧ GuessObjectType true "CN=Computer,CN=Schema,CN=Configuration,DC=x" "cn=c,dc=x" =
      GuessResult.lookedUp TypedLookup.computer "cn=c,dc=x"
    ∧ GuessObjectType true "CN=Person,CN=Schema,CN=Configuration,DC=x" "cn=u,dc=x" =
      GuessResult.lookedUp TypedLookup.user "cn=u,dc=x"
    ∧ GuessObjectType true "CN=Group,CN=Schema,CN=Configuration,DC=x" "cn=g,dc=x" =
      GuessResult.lookedUp TypedLookup.group "cn=g,dc=x"
    ∧ GuessObjectType true "CN=Container,CN=Schema,CN=Configuration,DC=x" "cn=k,dc=x" =
      GuessResult.attributeError
    ∧ GuessObjectType true "CN=Organizational-Unit,CN=Schema,CN=Configuration,DC=x" "ou=o,dc=x" =
      GuessResult.attributeError
    ∧ GuessObjectType true "CN=Foreign-Security-Principal,CN=Schema,CN=Configuration,DC=x" "cn=f,dc=x" =
      GuessResult.unchanged
    ∧ (∀ t d, GuessResult.attributeError ≠ GuessResult.lookedUp t d) := by
  refine ⟨rfl, rfl, rfl, rfl, rfl, rfl, rfl, ?_⟩
  intro t d
  intro hcontra
  cases hcontra

/-! ### User.Enable (ad_ldap.py lines 850-871) and ToStr (lines 62-74) -/

/-- A Python runtime value, where the `str` / `bytes` / `int` distinction
matters. -/
inductive PyVal where
  | str (s : String)
  | bytes (s : String)
  | int (n : Int)
  deriving DecidableEq

/-- `ToStr` (ad_ldap.py lines 62-74): a `str` passes through; anything else
gets `.decode('utf-8')` called on it — fine for `bytes` (modelled as the
same `String`), but an `int` has no `decode` attribute, so Python raises
`AttributeError`, modelled as `none`. -/
def ToStr : PyVal → Option String
  | .str s => some s
  | .bytes s => some s
  | .int _ => none

/-- `constants.ADS_UF_ACCOUNTDISABLE` (pinned to 2 by the unit tests). -/
def ADS_UF_ACCOUNTDISABLE : Nat := 2

/-- `BitmaskBool` (ad_ldap.py lines 108-132): true exactly when the bit is
set. -/
def BitmaskBool (bitmask value : Nat) : Bool :=
  bitmask &&& value != 0

/-- Python `int(s)` restricted to the nonnegative decimal numerals that
occur as `userAccountControl` values; `none` stands for `ValueError`. -/
def pyIntParse (s : String) : Option Nat :=
  let cs := s.toList
  if cs = [] then none
  else if cs.all (fun c => c.isDigit) then
    some (cs.foldl (fun acc c => acc * 10 + (c.toNat - 48)) 0)
  else none

/-- Reading `self.user_account_control` (lines 769-771): parse the first
`userAccountControl` value as a decimal integer; `none` models the uncaught
exception when the key or value is missing or not numeric. -/
def uacOf (props : PropMap) : Option Nat :=
  match lookupProp props "userAccountControl" with
  | some (some s :: _) => pyIntParse s
  | _ => none

/-- Outcome of `User.Enable`. -/
inductive EnableResult where
  /-- `errors.UserNotDisabledError`. -/
  | userNotDisabled
  /-- Uncaught `AttributeError` raised by `ToStr(value)` on an `int`. -/
  | attributeError
  /-- Uncaught exception reading `userAccountControl`. -/
  | uacError
  /-- The boolean the method returns after the commit and the re-check. -/
  | committed (b : Bool)
  deriving DecidableEq

instance : DecidableEq (EnableResult × ADObjectState × List StoreCall) := inferInstance

/-- `User.Enable` (ad_ldap.py lines 850-871): raise `UserNotDisabledError`
if the disable bit is clear; otherwise compute `value = uac ^
ADS_UF_ACCOUNTDISABLE` and assign `[ToStr(value)]` — but `value` is an
`int`, and `ToStr` of an `int` raises `AttributeError` (`Disable` at line
842 uses `str(value)` instead), so the assignment, the commit and the
re-verification are never reached.  The continuation after `ToStr` is
embedded anyway, although it is dead in practice: assign the new value,
call `SetProperties` ignoring its return value, re-read the flag and return
whether it now reads clear. -/
def Enable (connected : Bool) (store : StoreFn) (st : ADObjectState) :
    EnableResult × ADObjectState × List StoreCall :=
  match uacOf st.properties with
  | none => (.uacError, st, [])
  | some uac =>
    if !(BitmaskBool uac ADS_UF_ACCOUNTDISABLE) then (.userNotDisabled, st, [])
    else
      let value := uac ^^^ ADS_UF_ACCOUNTDISABLE
      match ToStr (.int (value : Int)) with
      | none => (.attributeError, st, [])
      | some s =>
        let r := SetProperties connected store
          { st with properties := setProp st.properties "userAccountControl" [some s] }
        match uacOf r.2.1.properties with
        | none => (.uacError, r.2.1, r.2.2)
        | some uac2 =>
          (.committed (!(BitmaskBool uac2 ADS_UF_ACCOUNTDISABLE)), r.2.1, r.2.2)

/-- Claim C8 (code bug): the guard half holds — a user whose disabled flag
is clear gets `UserNotDisabledError` and no commit — but a disabled user
(uac 514) never reaches the commit: `ToStr` is called on the freshly
computed `int` and raises `AttributeError`, so the bit is not cleared,
nothing is transmitted and the state is untouched. -/
theorem enable_tostr_attribute_error_cex :
    Enable true (fun _ _ _ => 103)
      (ADObjectState.mk
        [("distinguishedName", [some "cn=u,dc=x"]), ("userAccountControl", [some "512"])]
        [("distinguishedName", [some "cn=u,dc=x"]), ("userAccountControl", [some "512"])]) =
      (EnableResult.userNotDisabled,
       ADObjectState.mk
        [("distinguishedName", [some "cn=u,dc=x"]), ("userAccountControl", [some "512"])]
        [("distinguishedName", [some "cn=u,dc=x"]), ("userAccountControl", [some "512"])], [])
    ∧ Enable true (fun _ _ _ => 103)
      (ADObjectState.mk
        [("distinguishedName", [some "cn=u,dc=x"]), ("userAccountControl", [some "514"])]
        [("distinguishedName", [some "cn=u,dc=x"]), ("userAccountControl", [some "514"])]) =
      (EnableResult.attributeError,
       ADObjectState.mk
        [("distinguishedName", [some "cn=u,dc=x"]), ("userAccountControl", [some "514"])]
        [("distinguishedName", [some "cn=u,dc=x"]), ("userAccountControl", [some "514"])], [])
    ∧ ToStr (PyVal.int 512) = none
    ∧ (∀ b, EnableResult.attributeError ≠ EnableResult.committed b) := by
  refine ⟨by decide, by decide, rfl, ?_⟩
  intro b hcontra
  cases hcontra

/-! ### AD filetime conversion (`ADFileTimeToUnix`, ad_ldap.py lines 47-59)

`int((ad_time - constants.EPOCH_AS_FILETIME) / 10000000)` performs Python 3
TRUE division: the exact integer difference is divided as a correctly
rounded IEEE-754 binary64 quotient (CPython's `long_true_divide` documents
correct rounding with ties to even), and `int()` then truncates toward
zero.  The binary64 rounding is modelled exactly, for the normal
non-overflowing range that 64-bit tick counts divided by 10^7 always stay
in: the exponent of the quotient is found, the quotient is rounded to 53
significant bits on the grid `2^(exponent - 52)` with ties to even, and the
resulting rational is truncated. -/

/-- Round-to-nearest, ties-to-even, of the rational `p / q` (for `q > 0`):
the integer part, bumped by one when the remainder is above half, or at an
exact half when the integer part is odd. -/
def rne (p q : Nat) : Nat :=
  if 2 * (p % q) < q then p / q
  else if q < 2 * (p % q) then p / q + 1
  else if (p / q) % 2 = 0 then p / q else p / q + 1

/-- Binary exponent `floor (log2 (a / b))` of the quotient, computed with a
`2^200` scaling so that `Nat.log2` applies also to quotients below one
(valid whenever `b ≤ a * 2^200`). -/
def floatExp (a b : Nat) : Int :=
  (Nat.log2 (a * 2 ^ 200 / b) : Int) - 200

/-- The rounded 53-bit significand of `a / b`, scaled so that the binary64
value of the quotient is `floatMant a b * 2 ^ (floatExp a b - 52)`. -/
def floatMant (a b : Nat) : Nat :=
  rne (a * 2 ^ ((52 : Int) - floatExp a b).toNat)
      (b * 2 ^ (floatExp a b - 52).toNat)

/-- `int(a / b)` in Python 3 for naturals `a`, `b > 0`: the correctly
rounded binary64 value of `a / b`, truncated toward zero. -/
def pyTrueDivInt (a b : Nat) : Nat :=
  if a = 0 then 0
  else if 52 ≤ floatExp a b then
    floatMant a b * 2 ^ (floatExp a b - 52).toNat
  else
    floatMant a b / 2 ^ ((52 : Int) - floatExp a b).toNat

/-- Modelled from the spec: `constants.EPOCH_AS_FILETIME` (the `constants`
module is not in src/): the spec's `EPOCH_TICKS`, the number of 100ns ticks
from 1601-01-01 to 1970-01-01, i.e. 11644473600 seconds times 10^7.  The
unit tests pin it only as a large constant; its exact value does not affect
any claim, which all quantify relative to it. -/
def EPOCH_AS_FILETIME : Nat := 116444736000000000

/-- `ADFileTimeToUnix` (ad_ldap.py lines 47-59):
`int((ad_time - EPOCH_AS_FILETIME) / 10000000)`.  The subtraction is exact
integer arithmetic; the division is binary64 true division; `int()`
truncates toward zero.  A difference below the epoch negates symmetrically,
since IEEE rounding to nearest (ties to even) and truncation are both
sign-symmetric. -/
def ADFileTimeToUnix (ad_time : Nat) : Int :=
  if EPOCH_AS_FILETIME ≤ ad_time then
    ((pyTrueDivInt (ad_time - EPOCH_AS_FILETIME) 10000000 : Nat) : Int)
  else
    -((pyTrueDivInt (EPOCH_AS_FILETIME - ad_time) 10000000 : Nat) : Int)

/-! ### Rounding-error bounds and the exactness range -/

theorem le_rne_mul (p q : Nat) (hq : 0 < q) :
    2 * p ≤ 2 * rne p q * q + q := by
  have hdm : q * (p / q) + p % q = p := Nat.div_add_mod p q
  have hrlt : p % q < q := Nat.mod_lt _ hq
  have h2p : 2 * p = 2 * (q * (p / q)) + 2 * (p % q) := by
    conv_lhs => rw [← hdm]
    ring
  unfold rne
  by_cases h1 : 2 * (p % q) < q
  · rw [if_pos h1, h2p]
    have e1 : 2 * (p / q) * q + q = 2 * (q * (p / q)) + q := by ring
    rw [e1]
    exact Nat.add_le_add_left (Nat.le_of_lt h1) _
  · rw [if_neg h1]
    by_cases h2 : q < 2 * (p % q)
    · rw [if_pos h2, h2p]
      have e1 : 2 * (p / q + 1) * q + q = 2 * (q * (p / q)) + (2 * q + q) := by ring
      rw [e1]
      apply Nat.add_le_add_left
      omega
    · have htie : 2 * (p % q) = q := by omega
      by_cases h3 : (p / q) % 2 = 0
      · rw [if_neg h2, if_pos h3, h2p, htie]
        have e1 : 2 * (p / q) * q + q = 2 * (q * (p / q)) + q := by ring
        rw [e1]
      · rw [if_neg h2, if_neg h3, h2p, htie]
        have e1 : 2 * (p / q + 1) * q + q = 2 * (q * (p / q)) + (2 * q + q) := by ring
        rw [e1]
        apply Nat.add_le_add_left
        omega

theorem rne_mul_le (p q : Nat) (hq : 0 < q) :
    2 * rne p q * q ≤ 2 * p + q := by
  have hdm : q * (p / q) + p % q = p := Nat.div_add_mod p q
  have hrlt : p % q < q := Nat.mod_lt _ hq
  have h2p : 2 * p + q = 2 * (q * (p / q)) + (2 * (p % q) + q) := by
    conv_lhs => rw [← hdm]
    ring
  unfold rne
  by_cases h1 : 2 * (p % q) < q
  · rw [if_pos h1, h2p]
    have e1 : 2 * (p / q) * q = 2 * (q * (p / q)) := by ring
    rw [e1]
    exact Nat.le_add_right _ _
  · rw [if_neg h1]
    by_cases h2 : q < 2 * (p % q)
    · rw [if_pos h2, h2p]
      have e1 : 2 * (p / q + 1) * q = 2 * (q * (p / q)) + 2 * q := by ring
      rw [e1]
      apply Nat.add_le_add_left
      omega
    · have htie : 2 * (p % q) = q := by omega
      by_cases h3 : (p / q) % 2 = 0
      · rw [if_neg h2, if_pos h3, h2p]
        have e1 : 2 * (p / q) * q = 2 * (q * (p / q)) := by ring
        rw [e1]
        exact Nat.le_add_right _ _
      · rw [if_neg h2, if_neg h3, h2p]
        have e1 : 2 * (p / q + 1) * q = 2 * (q * (p / q)) + 2 * q := by ring
        rw [e1]
        apply Nat.add_le_add_left
        omega

/-- Quotient below one: the rounded significand stays below the scaling
power, so truncation gives zero. -/
theorem rne_small_lt {d P : Nat} (hd : d ≤ 9999999) (hP : 9007199254740992 ≤ P) :
    rne (d * P) 10000000 < P := by
  have h := rne_mul_le (d * P) 10000000 (by norm_num)
  have hdP : d * P ≤ 9999999 * P := Nat.mul_le_mul_right P hd
  set M := rne (d * P) 10000000 with hM
  set DP := d * P with hDP
  omega

/-- Exact quotient: the significand is the exact scaled value and truncation
recovers the quotient. -/
theorem rne_exact_div {n P : Nat} (hPpos : 0 < P) :
    rne (10000000 * n * P) 10000000 / P = n := by
  have hexp : 10000000 * n * P = 10000000 * (n * P) := by ring
  rw [hexp]
  have hval : rne (10000000 * (n * P)) 10000000 = n * P := by
    have hmod : (10000000 * (n * P)) % 10000000 = 0 := Nat.mul_mod_right _ _
    have hdiv : (10000000 * (n * P)) / 10000000 = n * P :=
      Nat.mul_div_cancel_left _ (by norm_num)
    unfold rne
    rw [hmod, hdiv]
    norm_num
  rw [hval]
  exact Nat.mul_div_cancel _ hPpos

/-- Inexact quotient in the safe range: the half-grid rounding error is
smaller than the distance to either neighbouring integer, so truncation
still recovers the exact integer quotient. -/
theorem rne_main_div {n r P : Nat} (hr1 : 1 ≤ r) (hr2 : r ≤ 9999999)
    (hP : 8388608 ≤ P) :
    rne ((10000000 * n + r) * P) 10000000 / P = n := by
  have hq : (0 : Nat) < 10000000 := by norm_num
  have h1 := le_rne_mul ((10000000 * n + r) * P) 10000000 hq
  have h2 := rne_mul_le ((10000000 * n + r) * P) 10000000 hq
  have hexp : (10000000 * n + r) * P = 10000000 * (n * P) + r * P := by ring
  rw [hexp] at h1 h2 ⊢
  have hrp1 : P ≤ r * P := Nat.le_mul_of_pos_left P hr1
  have hrp2 : r * P ≤ 9999999 * P := Nat.mul_le_mul_right P hr2
  set M := rne (10000000 * (n * P) + r * P) 10000000 with hM
  set A := n * P with hA
  set B := r * P with hB
  have lo : n * P ≤ M := by
    rw [← hA]
    omega
  have hi : M < (n + 1) * P := by
    rw [Nat.succ_mul, ← hA]
    omega
  exact Nat.div_eq_of_lt_le lo hi

/-- In the range `d < 2^30 * 10^7` (quotients below `2^30` seconds), the
binary64 true division truncates to exactly the integer quotient. -/
theorem pyTrueDivInt_eq_div {d : Nat} (hd : d < 2 ^ 30 * 10000000) :
    pyTrueDivInt d 10000000 = d / 10000000 := by
  by_cases h0 : d = 0
  · subst h0
    simp [pyTrueDivInt]
  · have hd1 : 0 < d := Nat.pos_of_ne_zero h0
    have hx1 : 1 ≤ d * 2 ^ 200 / 10000000 := by
      rw [Nat.le_div_iff_mul_le (by norm_num)]
      calc 1 * 10000000 ≤ 2 ^ 200 := by norm_num
        _ ≤ d * 2 ^ 200 := Nat.le_mul_of_pos_left _ hd1
    have hxne : d * 2 ^ 200 / 10000000 ≠ 0 := by omega
    by_cases hsmall : d < 10000000
    · -- quotient below one: exponent is negative, result is zero
      have hL : Nat.log2 (d * 2 ^ 200 / 10000000) < 200 := by
        rw [Nat.log2_lt hxne, Nat.div_lt_iff_lt_mul (by norm_num)]
        calc d * 2 ^ 200 < 10000000 * 2 ^ 200 :=
              (Nat.mul_lt_mul_right (show 0 < 2 ^ 200 by norm_num)).mpr hsmall
          _ = 2 ^ 200 * 10000000 := by ring
      have heneg : ¬ 52 ≤ floatExp d 10000000 := by
        simp only [floatExp]
        omega
      have heq0 : (floatExp d 10000000 - 52).toNat = 0 := by
        simp only [floatExp]
        omega
      have hσ : ((52 : Int) - floatExp d 10000000).toNat
          = 252 - Nat.log2 (d * 2 ^ 200 / 10000000) := by
        simp only [floatExp]
        omega
      have hm : floatMant d 10000000
          = rne (d * 2 ^ (252 - Nat.log2 (d * 2 ^ 200 / 10000000))) 10000000 := by
        simp only [floatMant, heq0, hσ]
        norm_num
      have hPbig : 9007199254740992 ≤ 2 ^ (252 - Nat.log2 (d * 2 ^ 200 / 10000000)) := by
        calc (9007199254740992 : Nat) = 2 ^ 53 := by norm_num
          _ ≤ 2 ^ (252 - Nat.log2 (d * 2 ^ 200 / 10000000)) :=
              Nat.pow_le_pow_right (by norm_num) (by omega)
      unfold pyTrueDivInt
      rw [if_neg h0, if_neg heneg, hm, hσ]
      rw [Nat.div_eq_of_lt (rne_small_lt (by omega) hPbig),
          Nat.div_eq_of_lt hsmall]
    · -- main range: exponent between 0 and 29
      have hL1 : 200 ≤ Nat.log2 (d * 2 ^ 200 / 10000000) := by
        rw [Nat.le_log2 hxne, Nat.le_div_iff_mul_le (by norm_num)]
        calc 2 ^ 200 * 10000000 = 10000000 * 2 ^ 200 := by ring
          _ ≤ d * 2 ^ 200 := Nat.mul_le_mul_right _ (by omega)
      have hL2 : Nat.log2 (d * 2 ^ 200 / 10000000) < 230 := by
        rw [Nat.log2_lt hxne, Nat.div_lt_iff_lt_mul (by norm_num)]
        calc d * 2 ^ 200 < 2 ^ 30 * 10000000 * 2 ^ 200 :=
              (Nat.mul_lt_mul_right (show 0 < 2 ^ 200 by norm_num)).mpr hd
          _ = 2 ^ 230 * 10000000 := by norm_num
      have heneg : ¬ 52 ≤ floatExp d 10000000 := by
        simp only [floatExp]
        omega
      have heq0 : (floatExp d 10000000 - 52).toNat = 0 := by
        simp only [floatExp]
        omega
      have hσ : ((52 : Int) - floatExp d 10000000).toNat
          = 252 - Nat.log2 (d * 2 ^ 200 / 10000000) := by
        simp only [floatExp]
        omega
      have hm : floatMant d 10000000
          = rne (d * 2 ^ (252 - Nat.log2 (d * 2 ^ 200 / 10000000))) 10000000 := by
        simp only [floatMant, heq0, hσ]
        norm_num
      have hPlow : 8388608 ≤ 2 ^ (252 - Nat.log2 (d * 2 ^ 200 / 10000000)) := by
        calc (8388608 : Nat) = 2 ^ 23 := by norm_num
          _ ≤ 2 ^ (252 - Nat.log2 (d * 2 ^ 200 / 10000000)) :=
              Nat.pow_le_pow_right (by norm_num) (by omega)
      have hPpos : 0 < 2 ^ (252 - Nat.log2 (d * 2 ^ 200 / 10000000)) := by omega
      unfold pyTrueDivInt
      rw [if_neg h0, if_neg heneg, hm, hσ]
      set P := 2 ^ (252 - Nat.log2 (d * 2 ^ 200 / 10000000)) with hPdef
      have hdm : 10000000 * (d / 10000000) + d % 10000000 = d :=
        Nat.div_add_mod d 10000000
      rcases Nat.eq_zero_or_pos (d % 10000000) with hr0 | hrpos
      · have hdeq : d = 10000000 * (d / 10000000) := by omega
        calc rne (d * P) 10000000 / P
            = rne (10000000 * (d / 10000000) * P) 10000000 / P := by
              conv_lhs => rw [hdeq]
          _ = d / 10000000 := rne_exact_div hPpos
      · have hdeq : d = 10000000 * (d / 10000000) + d % 10000000 := by omega
        calc rne (d * P) 10000000 / P
            = rne ((10000000 * (d / 10000000) + d % 10000000) * P) 10000000 / P := by
              conv_lhs => rw [hdeq]
          _ = d / 10000000 := rne_main_div hrpos (by omega) hPlow

/-- Evaluation of the float model at the counterexample offset
`d = 2^30 * 10^7 + 9999999`: the quotient exponent is 30.  (`Nat.log2` is
defined by well-founded recursion and does not reduce definitionally, so
its value is pinned through the `le_log2` / `log2_lt` characterisation.) -/
theorem floatExp_cex : floatExp 10737418249999999 10000000 = 30 := by
  have hne : 10737418249999999 * 2 ^ 200 / 10000000 ≠ 0 := by
    have h1 : (1 : Nat) ≤ 10737418249999999 * 2 ^ 200 / 10000000 := by
      rw [Nat.le_div_iff_mul_le (by norm_num)]
      norm_num
    omega
  have hL : Nat.log2 (10737418249999999 * 2 ^ 200 / 10000000) = 230 := by
    apply Nat.le_antisymm
    · have h2 := (Nat.log2_lt hne).mpr
        (show 10737418249999999 * 2 ^ 200 / 10000000 < 2 ^ 231 by
          rw [Nat.div_lt_iff_lt_mul (by norm_num)]
          norm_num)
      omega
    · exact (Nat.le_log2 hne).mpr
        (by rw [Nat.le_div_iff_mul_le (by norm_num)]
            norm_num)
  simp only [floatExp, hL]
  norm_num

/-- The counterexample quotient selects the truncating branch. -/
theorem pyTrueDivInt_cex_branch :
    pyTrueDivInt 10737418249999999 10000000
      = floatMant 10737418249999999 10000000
        / 2 ^ ((52 : Int) - floatExp 10737418249999999 10000000).toNat := by
  unfold pyTrueDivInt
  rw [if_neg (by norm_num), if_neg (by rw [floatExp_cex]; norm_num)]

/-- The scaling exponent at the counterexample is 22 bits. -/
theorem pyTrueDivInt_cex_sigma :
    ((52 : Int) - floatExp 10737418249999999 10000000).toNat = 22 := by
  rw [floatExp_cex]
  decide

/-- The rounded significand at the counterexample: the exact scaled quotient
is `2^52 + 2^22 - 0.4194304`, whose nearest integer is `2^52 + 2^22` — the
rounding crosses the integer boundary of the unscaled quotient. -/
theorem pyTrueDivInt_cex_mant :
    floatMant 10737418249999999 10000000 = 4503599631564800 := by
  simp only [floatMant]
  rw [floatExp_cex]
  decide

/-- The float model value at the counterexample offset. -/
theorem pyTrueDivInt_cex_eval :
    pyTrueDivInt 10737418249999999 10000000 = 1073741825 := by
  rw [pyTrueDivInt_cex_branch, pyTrueDivInt_cex_mant, pyTrueDivInt_cex_sigma]
  norm_num

/-- Counterexample to C9 as stated: at offset
`d = 2^30 * 10^7 + 9999999 = 10737418249999999` ticks past the epoch, the
exact quotient is `2^30 + 0.9999999`, only `10^-7` below the integer
`2^30 + 1`, while the binary64 grid at that magnitude is
`2^-22 = 2.4 * 10^-7` wide — so the correctly rounded quotient is exactly
`2^30 + 1.0` and `int()` returns `2^30 + 1 = 1073741825`, one more than the
claimed integer division `2^30 = 1073741824`. -/
theorem adFileTimeToUnix_float_rounding_cex :
    ADFileTimeToUnix (EPOCH_AS_FILETIME + 10737418249999999) = 1073741825
    ∧ ((10737418249999999 : Nat) / 10000000) = 1073741824
    ∧ ADFileTimeToUnix (EPOCH_AS_FILETIME + 10737418249999999) ≠
        (((10737418249999999 : Nat) / 10000000 : Nat) : Int) := by
  have h1 : ADFileTimeToUnix (EPOCH_AS_FILETIME + 10737418249999999) = 1073741825 := by
    unfold ADFileTimeToUnix
    rw [if_pos (Nat.le_add_right _ _), Nat.add_sub_cancel_left, pyTrueDivInt_cex_eval]
    norm_num
  refine ⟨h1, by norm_num, ?_⟩
  rw [h1]
  norm_num

/-- Claim C9 as amended: the conversion truncates the correctly rounded
binary64 quotient toward zero.  This equals the exact integer division
`(t - EPOCH) / 10^7` for every `t` with `EPOCH ≤ t < EPOCH + 2^30 * 10^7`
(about 34 years of range), so in particular the three spot identities hold;
it is not the exact integer division for every 64-bit tick count. -/
theorem adFileTimeToUnix_amended :
    (∀ d : Nat, d < 2 ^ 30 * 10000000 →
      ADFileTimeToUnix (EPOCH_AS_FILETIME + d) = ((d / 10000000 : Nat) : Int))
    ∧ ADFileTimeToUnix EPOCH_AS_FILETIME = 0
    ∧ ADFileTimeToUnix (EPOCH_AS_FILETIME + 10000000) = 1
    ∧ ADFileTimeToUnix (EPOCH_AS_FILETIME + 86400 * 10000000) = 86400 := by
  have hmain : ∀ d : Nat, d < 2 ^ 30 * 10000000 →
      ADFileTimeToUnix (EPOCH_AS_FILETIME + d) = ((d / 10000000 : Nat) : Int) := by
    intro d hd
    unfold ADFileTimeToUnix
    rw [if_pos (Nat.le_add_right _ _), Nat.add_sub_cancel_left,
        pyTrueDivInt_eq_div hd]
  refine ⟨hmain, ?_, ?_, ?_⟩
  · have h := hmain 0 (by norm_num)
    simpa using h
  · have h := hmain 10000000 (by norm_num)
    simpa using h
  · have h := hmain (86400 * 10000000) (by norm_num)
    rw [h]
    norm_num

/-- Witness for the amended C9: one second past the epoch converts to 1. -/
theorem adFileTimeToUnix_amended_witness :
    ADFileTimeToUnix (EPOCH_AS_FILETIME + 10000000) = ((10000000 / 10000000 : Nat) : Int) :=
  adFileTimeToUnix_amended.1 10000000 (by norm_num)

end AdLdap
